import Mathlib

/-!
Verification of the BLT-NetGuardian cryptographic reporting core.

The Python sources embedded here are `src/src/crypto_reporter.py` (severity
validation, JWK public-key validation, org-id hashing, report construction,
payload serialization, submission building, key storage) and
`src/secure_reporter.py` (the PGP encrypt/decrypt round trip).

Modelling conventions:
- Python `str` values are `List Char` (`Str` below).
- Python JSON-compatible values (the dicts passed around by the code) are the
  inductive `Json`; Python dicts preserve insertion order, so objects carry an
  ordered association list.
- `json.dumps` / `json.loads` from the Python standard library are modelled by
  an executable serializer and recursive-descent parser over `Json`.  The
  serializer supports the three separator configurations the repository uses:
  `separators=(',',':')` (compact), the stdlib default `(', ', ': ')`, and
  `indent=2`.  One deviation from CPython: `ensure_ascii` escaping of
  non-ASCII characters is not reproduced (only the mandatory JSON escapes for
  quote, backslash and control characters are emitted); this does not affect
  any claim below.
- Nondeterministic effects (the clock, `uuid.uuid4()`, the GPG engine, the
  file system, the D1 database) are passed in explicitly as parameters.
-/

namespace NetGuardian

/-- Python strings, as lists of characters. -/
abbrev Str := List Char

/-- Decimal digit character (used for rendering numbers and timestamps). -/
def digitChar : Nat → Char
  | 0 => '0' | 1 => '1' | 2 => '2' | 3 => '3' | 4 => '4'
  | 5 => '5' | 6 => '6' | 7 => '7' | 8 => '8' | _ => '9'

/-- Lower-case hexadecimal digit character. -/
def hexDigitChar : Nat → Char
  | 0 => '0' | 1 => '1' | 2 => '2' | 3 => '3' | 4 => '4'
  | 5 => '5' | 6 => '6' | 7 => '7' | 8 => '8' | 9 => '9'
  | 10 => 'a' | 11 => 'b' | 12 => 'c' | 13 => 'd' | 14 => 'e' | _ => 'f'

/-- Numeric value of a hexadecimal digit character (JSON string unescaping). -/
def hexVal (c : Char) : Option Nat :=
  let v := c.toNat
  if 48 ≤ v ∧ v ≤ 57 then some (v - 48)
  else if 97 ≤ v ∧ v ≤ 102 then some (v - 87)
  else if 65 ≤ v ∧ v ≤ 70 then some (v - 55)
  else none

/-- The whitespace characters stripped by Python `str.strip()` (ASCII part). -/
def isPyWs (c : Char) : Bool :=
  c == ' ' || c == '\t' || c == '\n' || c == '\r' || c == '\x0b' || c == '\x0c'

/-- JSON insignificant whitespace (RFC 8259, as accepted by `json.loads`). -/
def isJsonWs (c : Char) : Bool :=
  c == ' ' || c == '\t' || c == '\n' || c == '\r'

/-- Decimal rendering of a natural number, most significant digit first
(Python `str(n)` for a nonnegative integer). -/
def natChars (n : Nat) : Str :=
  if _h : n < 10 then [digitChar n]
  else natChars (n / 10) ++ [digitChar (n % 10)]
  decreasing_by exact Nat.div_lt_self (by omega) (by omega)

/-- Decimal rendering of an integer (Python `str(i)` / JSON number output). -/
def intChars (i : Int) : Str :=
  if i < 0 then '-' :: natChars i.natAbs else natChars i.natAbs

/-- Python values that are representable in JSON: the payloads the reporter
passes to `json.dumps`.  Objects keep Python dict insertion order. -/
inductive Json where
  | null : Json
  | bool (b : Bool) : Json
  | num (n : Int) : Json
  | str (s : Str) : Json
  | arr (elems : List Json) : Json
  | obj (fields : List (Str × Json)) : Json

mutual
/-- Boolean equality on JSON values (Python `==` on these values). -/
def beqV : Json → Json → Bool
  | .null, .null => true
  | .bool a, .bool b => a == b
  | .num a, .num b => a == b
  | .str a, .str b => a == b
  | .arr a, .arr b => beqL a b
  | .obj a, .obj b => beqF a b
  | _, _ => false

/-- Boolean equality on JSON arrays. -/
def beqL : List Json → List Json → Bool
  | [], [] => true
  | x :: xs, y :: ys => beqV x y && beqL xs ys
  | _, _ => false

/-- Boolean equality on JSON object field lists. -/
def beqF : List (Str × Json) → List (Str × Json) → Bool
  | [], [] => true
  | (k, v) :: xs, (l, w) :: ys => k == l && beqV v w && beqF xs ys
  | _, _ => false
end

mutual
theorem beqV_iff : ∀ a b, beqV a b = true ↔ a = b
  | .null, b => by cases b <;> simp [beqV]
  | .bool x, b => by cases b <;> simp [beqV]
  | .num x, b => by cases b <;> simp [beqV]
  | .str x, b => by cases b <;> simp [beqV]
  | .arr xs, b => by
      cases b <;> simp [beqV]
      exact beqL_iff xs _
  | .obj kvs, b => by
      cases b <;> simp [beqV]
      exact beqF_iff kvs _

theorem beqL_iff : ∀ a b, beqL a b = true ↔ a = b
  | [], b => by cases b <;> simp [beqL]
  | x :: xs, b => by
      cases b with
      | nil => simp [beqL]
      | cons y ys => simp [beqL, beqV_iff x y, beqL_iff xs ys]

theorem beqF_iff : ∀ a b, beqF a b = true ↔ a = b
  | [], b => by cases b <;> simp [beqF]
  | (k, v) :: xs, b => by
      cases b with
      | nil => simp [beqF]
      | cons f ys =>
          obtain ⟨l, w⟩ := f
          simp [beqF, beqV_iff v w, beqF_iff xs ys, and_assoc]
end

instance : DecidableEq Json := fun a b => decidable_of_iff _ (beqV_iff a b)

/-- Python truthiness (`bool(v)`) of a JSON-representable value. -/
def truthy : Json → Bool
  | .null => false
  | .bool b => b
  | .num n => n != 0
  | .str s => !s.isEmpty
  | .arr xs => !xs.isEmpty
  | .obj kvs => !kvs.isEmpty

/-- `d.get(k)` on a Python dict (association-list lookup). -/
def jget (kvs : List (Str × Json)) (k : Str) : Option Json :=
  match kvs with
  | [] => none
  | (k', v) :: rest => if k' = k then some v else jget rest k

/-- Truthiness of `d.get(k)` (`None` when the key is absent is falsy). -/
def truthyOpt : Option Json → Bool
  | none => false
  | some v => truthy v

/-- The key list of a JSON object value (empty for non-objects). -/
def jsonKeys : Json → List Str
  | .obj kvs => kvs.map Prod.fst
  | _ => []

/-- The separator configurations of `json.dumps` used by the repository:
`separators=(',',':')`, the stdlib default, and `indent=2`-style indenting. -/
inductive SepMode where
  | compact : SepMode
  | spaced : SepMode
  | indent (n : Nat) : SepMode
  deriving DecidableEq, Repr

/-- Newline-plus-indentation emitted inside containers (indent mode only). -/
def nlInd (m : SepMode) (lv : Nat) : Str :=
  match m with
  | .indent n => '\n' :: List.replicate (n * lv) ' '
  | _ => []

/-- Padding emitted after the `,` item separator. -/
def itemPad (m : SepMode) (lv : Nat) : Str :=
  match m with
  | .compact => []
  | .spaced => [' ']
  | .indent n => nlInd (.indent n) lv

/-- Padding emitted after the `:` key separator. -/
def kvPad (m : SepMode) : Str :=
  match m with
  | .compact => []
  | _ => [' ']

/-- JSON escaping of one string character (quote, backslash, and control
characters; controls are emitted as `\u00XX` like CPython). -/
def escChar (c : Char) : Str :=
  if c = '"' then ['\\', '"']
  else if c = '\\' then ['\\', '\\']
  else if c.toNat < 32 then
    ['\\', 'u', '0', '0', hexDigitChar (c.toNat / 16), hexDigitChar (c.toNat % 16)]
  else [c]

/-- JSON escaping of a string body. -/
def escStr : Str → Str
  | [] => []
  | c :: cs => escChar c ++ escStr cs

/-- A serialized JSON string literal, quotes included. -/
def quoted (s : Str) : Str := '"' :: (escStr s ++ ['"'])

mutual
/-- `json.dumps` on a value, at nesting level `lv`. -/
def serV (m : SepMode) (lv : Nat) : Json → Str
  | .null => 'n' :: ['u', 'l', 'l']
  | .bool true => 't' :: ['r', 'u', 'e']
  | .bool false => 'f' :: ['a', 'l', 's', 'e']
  | .num i => intChars i
  | .str s => quoted s
  | .arr [] => ['[', ']']
  | .arr (x :: xs) =>
      '[' :: (nlInd m (lv + 1) ++ serV m (lv + 1) x ++ serItems m (lv + 1) xs
        ++ nlInd m lv ++ [']'])
  | .obj [] => ['{', '}']
  | .obj (f :: fs) =>
      '{' :: (nlInd m (lv + 1) ++ serField m (lv + 1) f ++ serFields m (lv + 1) fs
        ++ nlInd m lv ++ ['}'])

/-- The remaining array items, each preceded by the item separator. -/
def serItems (m : SepMode) (lv : Nat) : List Json → Str
  | [] => []
  | x :: xs => ',' :: (itemPad m lv ++ serV m lv x ++ serItems m lv xs)

/-- One `"key": value` pair. -/
def serField (m : SepMode) (lv : Nat) : Str × Json → Str
  | (k, v) => quoted k ++ ':' :: (kvPad m ++ serV m lv v)

/-- The remaining object fields, each preceded by the item separator. -/
def serFields (m : SepMode) (lv : Nat) : List (Str × Json) → Str
  | [] => []
  | f :: fs => ',' :: (itemPad m lv ++ serField m lv f ++ serFields m lv fs)
end

/-- Top-level `json.dumps`. -/
def dumps (m : SepMode) (v : Json) : Str := serV m 0 v

/-! ## SHA-256 (`hashlib.sha256`) over UTF-8 bytes (`str.encode()`)

Bytes are naturals below 256 and 32-bit words are naturals reduced modulo
`2 ^ 32`; this is the standard FIPS 180-4 algorithm, executable in the
kernel. -/

/-- UTF-8 encoding of one character (Python `str.encode()`). -/
def utf8Char (c : Char) : List Nat :=
  let n := c.toNat
  if n < 128 then [n]
  else if n < 2048 then [192 + n / 64, 128 + n % 64]
  else if n < 65536 then [224 + n / 4096, 128 + (n / 64) % 64, 128 + n % 64]
  else [240 + n / 262144, 128 + (n / 4096) % 64, 128 + (n / 64) % 64, 128 + n % 64]

/-- UTF-8 encoding of a string. -/
def utf8Encode : Str → List Nat
  | [] => []
  | c :: cs => utf8Char c ++ utf8Encode cs

/-- Reduction modulo `2 ^ 32` (32-bit word arithmetic). -/
def w32 (n : Nat) : Nat := n % 4294967296

/-- 32-bit right rotation. -/
def rotr (x n : Nat) : Nat := w32 ((x >>> n) + (x <<< (32 - n)))

/-- SHA-256 `Ch` function. -/
def shaCh (x y z : Nat) : Nat := (x &&& y) ^^^ ((x ^^^ 4294967295) &&& z)

/-- SHA-256 `Maj` function. -/
def shaMaj (x y z : Nat) : Nat := (x &&& y) ^^^ (x &&& z) ^^^ (y &&& z)

/-- SHA-256 big sigma-0. -/
def bigS0 (x : Nat) : Nat := rotr x 2 ^^^ rotr x 13 ^^^ rotr x 22

/-- SHA-256 big sigma-1. -/
def bigS1 (x : Nat) : Nat := rotr x 6 ^^^ rotr x 11 ^^^ rotr x 25

/-- SHA-256 small sigma-0. -/
def smallS0 (x : Nat) : Nat := rotr x 7 ^^^ rotr x 18 ^^^ (x >>> 3)

/-- SHA-256 small sigma-1. -/
def smallS1 (x : Nat) : Nat := rotr x 17 ^^^ rotr x 19 ^^^ (x >>> 10)

/-- The 64 SHA-256 round constants. -/
def shaK : List Nat :=
  [1116352408, 1899447441, 3049323471, 3921009573, 961987163,
   1508970993, 2453635748, 2870763221, 3624381080, 310598401,
   607225278, 1426881987, 1925078388, 2162078206, 2614888103,
   3248222580, 3835390401, 4022224774, 264347078, 604807628,
   770255983, 1249150122, 1555081692, 1996064986, 2554220882,
   2821834349, 2952996808, 3210313671, 3336571891, 3584528711,
   113926993, 338241895, 666307205, 773529912, 1294757372,
   1396182291, 1695183700, 1986661051, 2177026350, 2456956037,
   2730485921, 2820302411, 3259730800, 3345764771, 3516065817,
   3600352804, 4094571909, 275423344, 430227734, 506948616,
   659060556, 883997877, 958139571, 1322822218, 1537002063,
   1747873779, 1955562222, 2024104815, 2227730452, 2361852424,
   2428436474, 2756734187, 3204031479, 3329325298]

/-- The eight SHA-256 working registers. -/
structure Hash8 where
  a : Nat
  b : Nat
  c : Nat
  d : Nat
  e : Nat
  f : Nat
  g : Nat
  h : Nat

/-- SHA-256 initial hash state. -/
def shaInit : Hash8 :=
  ⟨1779033703, 3144134277, 1013904242, 2773480762,
   1359893119, 2600822924, 528734635, 1541459225⟩

/-- Extend the 16 block words with `k` further message-schedule words. -/
def buildW (ws : List Nat) : Nat → List Nat
  | 0 => ws
  | k + 1 =>
      let n := ws.length
      let wNew := w32 (smallS1 (ws.getD (n - 2) 0) + ws.getD (n - 7) 0
        + smallS0 (ws.getD (n - 15) 0) + ws.getD (n - 16) 0)
      buildW (ws ++ [wNew]) k

/-- One SHA-256 compression round. -/
def shaRound (st : Hash8) (p : Nat × Nat) : Hash8 :=
  let t1 := w32 (st.h + bigS1 st.e + shaCh st.e st.f st.g + p.2 + p.1)
  let t2 := w32 (bigS0 st.a + shaMaj st.a st.b st.c)
  ⟨w32 (t1 + t2), st.a, st.b, st.c, w32 (st.d + t1), st.e, st.f, st.g⟩

/-- Group a byte stream into big-endian 32-bit words. -/
def bytesToWords : List Nat → List Nat
  | b0 :: b1 :: b2 :: b3 :: rest => (((b0 * 256 + b1) * 256 + b2) * 256 + b3) :: bytesToWords rest
  | _ => []

/-- Compress one 64-byte block into the running hash state. -/
def shaBlock (st : Hash8) (block : List Nat) : Hash8 :=
  let ws := buildW (bytesToWords block) 48
  let t := (ws.zip shaK).foldl shaRound st
  ⟨w32 (st.a + t.a), w32 (st.b + t.b), w32 (st.c + t.c), w32 (st.d + t.d),
   w32 (st.e + t.e), w32 (st.f + t.f), w32 (st.g + t.g), w32 (st.h + t.h)⟩

/-- Split a byte stream into 64-byte chunks. -/
def chunks64 : List Nat → List (List Nat)
  | [] => []
  | l@(_ :: _) => l.take 64 :: chunks64 (l.drop 64)
  termination_by l => l.length
  decreasing_by simp_all [List.length_drop]; omega

/-- SHA-256 message padding: `0x80`, zeros, then the 64-bit bit length. -/
def shaPad (msg : List Nat) : List Nat :=
  let L := msg.length
  let zeros := (56 + 64 - ((L + 1) % 64)) % 64
  let bits := 8 * L
  msg ++ [128] ++ List.replicate zeros 0 ++
    [bits >>> 56 &&& 255, bits >>> 48 &&& 255, bits >>> 40 &&& 255, bits >>> 32 &&& 255,
     bits >>> 24 &&& 255, bits >>> 16 &&& 255, bits >>> 8 &&& 255, bits &&& 255]

/-- SHA-256 of a byte stream: the final eight-word state. -/
def sha256 (msg : List Nat) : Hash8 :=
  (chunks64 (shaPad msg)).foldl shaBlock shaInit

/-- Two lower-case hex characters of one byte. -/
def byteHex (b : Nat) : Str := [hexDigitChar (b / 16 % 16), hexDigitChar (b % 16)]

/-- Eight lower-case hex characters of one 32-bit word, big-endian. -/
def wordHex (w : Nat) : Str :=
  byteHex (w >>> 24 &&& 255) ++ byteHex (w >>> 16 &&& 255) ++
  byteHex (w >>> 8 &&& 255) ++ byteHex (w &&& 255)

/-- `hashlib.sha256(x).hexdigest()`: 64 lower-case hex characters. -/
def sha256Hex (s : Str) : Str :=
  let st := sha256 (utf8Encode s)
  wordHex st.a ++ wordHex st.b ++ wordHex st.c ++ wordHex st.d ++
  wordHex st.e ++ wordHex st.f ++ wordHex st.g ++ wordHex st.h

/-- The hex digest always has exactly 64 characters. -/
theorem sha256Hex_length (s : Str) : (sha256Hex s).length = 64 := by
  simp [sha256Hex, wordHex, byteHex]

/-! ## `src/src/crypto_reporter.py` -/

/-- The Python exception classes raised by the embedded code.  Note that in
CPython `json.JSONDecodeError` is a distinct class (a subclass of
`ValueError`); it is kept as its own constructor here. -/
inductive PyErr where
  | valueError (msg : Str) : PyErr
  | keyError (msg : Str) : PyErr
  | jsonDecodeError (msg : Str) : PyErr
  | fileNotFoundError (msg : Str) : PyErr
  deriving DecidableEq

/-- A naive UTC `datetime` value (what `datetime.utcnow()` returns). -/
structure PyDateTime where
  year : Nat
  month : Nat
  day : Nat
  hour : Nat
  minute : Nat
  second : Nat
  microsecond : Nat

/-- Two-digit zero-padded decimal field. -/
def pad2 (n : Nat) : Str := [digitChar (n / 10 % 10), digitChar (n % 10)]

/-- Four-digit zero-padded decimal field. -/
def pad4 (n : Nat) : Str :=
  [digitChar (n / 1000 % 10), digitChar (n / 100 % 10), digitChar (n / 10 % 10),
   digitChar (n % 10)]

/-- Six-digit zero-padded decimal field. -/
def pad6 (n : Nat) : Str :=
  [digitChar (n / 100000 % 10), digitChar (n / 10000 % 10), digitChar (n / 1000 % 10),
   digitChar (n / 100 % 10), digitChar (n / 10 % 10), digitChar (n % 10)]

/-- `datetime.isoformat()`: `YYYY-MM-DDTHH:MM:SS`, with `.ffffff` appended
exactly when the microsecond field is nonzero. -/
def isoformat (t : PyDateTime) : Str :=
  pad4 t.year ++ ['-'] ++ pad2 t.month ++ ['-'] ++ pad2 t.day ++ ['T'] ++
  pad2 t.hour ++ [':'] ++ pad2 t.minute ++ [':'] ++ pad2 t.second ++
  (if t.microsecond = 0 then [] else '.' :: pad6 t.microsecond)

/-- `datetime.utcnow().isoformat() + "Z"`, as stamped throughout the code. -/
def utcnowZ (t : PyDateTime) : Str := isoformat t ++ ['Z']

/-- `VALID_SEVERITIES` from `crypto_reporter.py` (a set; only membership is
ever used, so an ordered list is an equivalent embedding). -/
def VALID_SEVERITIES : List Str :=
  [("critical").data, ("high").data, ("medium").data, ("low").data, ("info").data]

/-- Python `str.lower()` (ASCII range; the severity strings are ASCII). -/
def pyLower (s : Str) : Str := s.map Char.toLower

/-- Python `str.strip()`: remove leading and trailing whitespace. -/
def pyStrip (s : Str) : Str :=
  ((s.dropWhile isPyWs).reverse.dropWhile isPyWs).reverse

/-- `validate_severity`: normalize (lower-case then strip) and check
membership in the five-value set, raising `ValueError` otherwise. -/
def validate_severity (severity : Str) : Except PyErr Str :=
  let normalized := pyStrip (pyLower severity)
  if normalized ∈ VALID_SEVERITIES then .ok normalized
  else .error (.valueError (("Invalid severity ").data ++ severity))

/-- `validate_jwk_public_key`: requires a dict with `kty == "RSA"`, truthy
`n` and `e`, and no `d` member; never raises. -/
def validate_jwk_public_key (jwk : Json) : Bool :=
  match jwk with
  | .obj kvs =>
      if jget kvs (("kty").data) ≠ some (.str (("RSA").data)) then false
      else if !truthyOpt (jget kvs (("n").data)) then false
      else if !truthyOpt (jget kvs (("e").data)) then false
      else if (jget kvs (("d").data)).isSome then false
      else true
  | _ => false

/-- `hash_org_id`: full SHA-256 hex digest of the UTF-8 encoded identifier. -/
def hash_org_id (org_id : Str) : Str := sha256Hex org_id

/-- `create_report`: the structured report dict, with the two clock readings
(top-level `timestamp` and `data.discovery_timestamp`) passed explicitly.
`cve_ids or []` / `additional_data or {}` map `None` (and empty) defaults to
empty collections. -/
def create_report (title description severity : Str) (affected_systems : List Str)
    (remediation : Str) (cve_ids : Option (List Str)) (additional_data : Option Json)
    (now1 now2 : PyDateTime) : Except PyErr Json :=
  match validate_severity severity with
  | .error e => .error e
  | .ok sev =>
      .ok (.obj
        [(("version").data, .str (("2.0").data)),
         (("report_type").data, .str (("vulnerability").data)),
         (("timestamp").data, .str (utcnowZ now1)),
         (("data").data, .obj
           [(("title").data, .str title),
            (("description").data, .str description),
            (("severity").data, .str sev),
            (("affected_systems").data, .arr (affected_systems.map .str)),
            (("remediation").data, .str remediation),
            (("cve_ids").data, .arr ((cve_ids.getD []).map .str)),
            (("additional_data").data, additional_data.getD (.obj [])),
            (("discovery_timestamp").data, .str (utcnowZ now2))])])

/-- `prepare_payload`: `json.dumps(report, separators=(',',':'))`. -/
def prepare_payload (report : Json) : Str := dumps .compact report

/-- The submission dict returned by `build_submission`. -/
structure Submission where
  submission_id : Str
  org_id_hash : Str
  key_fingerprint : Str
  encrypted_payload : Str
  submitted_at : Str
  encryption_method : Str

/-- The constant `encryption_method` tag string. -/
def ENCRYPTION_METHOD : Str := ("AES-GCM-256 + RSA-OAEP wrapped key").data

/-- `build_submission`: the generated `str(uuid.uuid4())` and the clock
reading are passed explicitly as the call's nondeterministic inputs. -/
def build_submission (encrypted_data org_id key_fingerprint : Str)
    (uuid4 : Str) (now : PyDateTime) : Submission :=
  { submission_id := uuid4
    org_id_hash := hash_org_id org_id
    key_fingerprint := key_fingerprint
    encrypted_payload := encrypted_data
    submitted_at := utcnowZ now
    encryption_method := ENCRYPTION_METHOD }

/-- The submission as the JSON value of its dict, keys in source order. -/
def Submission.toJson (s : Submission) : Json :=
  .obj
    [(("submission_id").data, .str s.submission_id),
     (("org_id_hash").data, .str s.org_id_hash),
     (("key_fingerprint").data, .str s.key_fingerprint),
     (("encrypted_payload").data, .str s.encrypted_payload),
     (("submitted_at").data, .str s.submitted_at),
     (("encryption_method").data, .str s.encryption_method)]

/-- The submission serialized to the compact JSON-like text of spec section 6
(the code itself hands the dict to transport unserialized). -/
def serializeSubmission (s : Submission) : Str := dumps .compact s.toJson

/-- The operations `store_org_key` can issue against the backing D1 store. -/
inductive DbOp where
  | upsertOrgKey (org_id_hash : Str) (jwk_json : Str) (registered_at : Str) : DbOp
  deriving DecidableEq

/-- Apply a trace of issued operations to a registry state (keyed by the
hashed identifier; the upsert replaces on conflict). -/
def applyOps (db : List (Str × Str × Str)) : List DbOp → List (Str × Str × Str)
  | [] => db
  | .upsertOrgKey k j t :: rest =>
      applyOps ((k, j, t) :: db.filter (fun r => r.1 ≠ k)) rest

/-- `store_org_key`: validate first, raising `ValueError` before touching the
store; on success issue exactly one upsert keyed by the hashed identifier.
The returned trace lists the database operations performed.
`json.dumps(jwk)` uses the stdlib default separators. -/
def store_org_key (org_id : Str) (jwk : Json) (now : PyDateTime) :
    Except PyErr Bool × List DbOp :=
  if validate_jwk_public_key jwk = false then
    (.error (.valueError (("Invalid or malformed JWK public key").data)), [])
  else
    (.ok true, [.upsertOrgKey (hash_org_id org_id) (dumps .spaced jwk) (utcnowZ now)])

/-! ## `json.loads`: a recursive-descent JSON parser

Numbers are restricted to integers (no value serialized by this code carries
a float), and a single `\uXXXX` escape denotes one scalar value; both are
immaterial to the claims below. -/

/-- Skip insignificant whitespace. -/
def skipWs : Str → Str
  | [] => []
  | c :: r => if isJsonWs c then skipWs r else c :: r

/-- Consume a run of decimal digits, accumulating their value. -/
def parseDigits (acc : Nat) : Str → Nat × Str
  | [] => (acc, [])
  | c :: r => if c.isDigit then parseDigits (acc * 10 + (c.toNat - 48)) r else (acc, c :: r)

/-- The single-character expansions of the short JSON escapes. -/
def escCode (e : Char) : Option Char :=
  if e = '"' then some '"'
  else if e = '\\' then some '\\'
  else if e = '/' then some '/'
  else if e = 'n' then some '\n'
  else if e = 't' then some '\t'
  else if e = 'r' then some '\r'
  else if e = 'b' then some '\x08'
  else if e = 'f' then some '\x0c'
  else none

/-- Parse a JSON string body after the opening quote, unescaping. -/
def parseStr : Str → Option (Str × Str)
  | [] => none
  | c :: r =>
      if c = '"' then some ([], r)
      else if c = '\\' then
        match r with
        | [] => none
        | e :: r1 =>
            if e = 'u' then
              match r1 with
              | h1 :: h2 :: h3 :: h4 :: r2 =>
                  match hexVal h1, hexVal h2, hexVal h3, hexVal h4 with
                  | some a, some b, some x, some d =>
                      if Nat.isValidChar (((a * 16 + b) * 16 + x) * 16 + d) then
                        (parseStr r2).map
                          (fun p => (Char.ofNat (((a * 16 + b) * 16 + x) * 16 + d) :: p.1, p.2))
                      else none
                  | _, _, _, _ => none
              | _ => none
            else
              match escCode e with
              | some ec => (parseStr r1).map (fun p => (ec :: p.1, p.2))
              | none => none
      else (parseStr r).map (fun p => (c :: p.1, p.2))

/-- Expect the given literal characters at the head of the input. -/
def expectChars : Str → Str → Option Str
  | [], s => some s
  | _ :: _, [] => none
  | c :: cs, d :: s => if d = c then expectChars cs s else none

mutual
/-- Parse one JSON value (fueled; `loads` supplies ample fuel). -/
def parseVal : Nat → Str → Option (Json × Str)
  | 0, _ => none
  | fuel + 1, s =>
      match skipWs s with
      | [] => none
      | c :: r =>
          if c = 'n' then (expectChars ['u', 'l', 'l'] r).map (fun r2 => (.null, r2))
          else if c = 't' then (expectChars ['r', 'u', 'e'] r).map (fun r2 => (.bool true, r2))
          else if c = 'f' then (expectChars ['a', 'l', 's', 'e'] r).map (fun r2 => (.bool false, r2))
          else if c = '"' then (parseStr r).map (fun p => (.str p.1, p.2))
          else if c = '[' then
            match skipWs r with
            | [] => none
            | d :: r2 =>
                if d = ']' then some (.arr [], r2)
                else (parseItems fuel (d :: r2)).map (fun p => (.arr p.1, p.2))
          else if c = '{' then
            match skipWs r with
            | [] => none
            | d :: r2 =>
                if d = '}' then some (.obj [], r2)
                else (parseFields fuel (d :: r2)).map (fun p => (.obj p.1, p.2))
          else if c = '-' then
            match r with
            | [] => none
            | c2 :: r2 =>
                if c2.isDigit then
                  let p := parseDigits (c2.toNat - 48) r2
                  some (.num (-(p.1 : Int)), p.2)
                else none
          else if c.isDigit then
            let p := parseDigits (c.toNat - 48) r
            some (.num (p.1 : Int), p.2)
          else none

/-- Parse the items of a nonempty array, consuming the closing bracket. -/
def parseItems : Nat → Str → Option (List Json × Str)
  | 0, _ => none
  | fuel + 1, s =>
      match parseVal fuel s with
      | none => none
      | some (v, r) =>
          match skipWs r with
          | [] => none
          | d :: r2 =>
              if d = ']' then some ([v], r2)
              else if d = ',' then (parseItems fuel r2).map (fun p => (v :: p.1, p.2))
              else none

/-- Parse the fields of a nonempty object, consuming the closing brace. -/
def parseFields : Nat → Str → Option (List (Str × Json) × Str)
  | 0, _ => none
  | fuel + 1, s =>
      match skipWs s with
      | [] => none
      | c :: r =>
          if c = '"' then
            match parseStr r with
            | none => none
            | some (k, r1) =>
                match skipWs r1 with
                | [] => none
                | d :: r2 =>
                    if d = ':' then
                      match parseVal fuel r2 with
                      | none => none
                      | some (v, r3) =>
                          match skipWs r3 with
                          | [] => none
                          | e :: r4 =>
                              if e = '}' then some ([(k, v)], r4)
                              else if e = ',' then
                                (parseFields fuel r4).map (fun p => ((k, v) :: p.1, p.2))
                              else none
                    else none
          else none
end

/-- `json.loads`: parse a complete document, allowing trailing whitespace. -/
def loads (s : Str) : Option Json :=
  match parseVal (s.length + 1) s with
  | some (v, r) => if skipWs r = [] then some v else none
  | none => none

/-! ## Round trip of the JSON codec: `loads (dumps m v) = some v` -/

/-- The parser cannot extend a number into this suffix (its head, if any, is
not a digit). -/
def numSafe : Str → Bool
  | [] => true
  | c :: _ => !c.isDigit

theorem digitChar_isDigit {n : Nat} (h : n < 10) : (digitChar n).isDigit = true := by
  interval_cases n <;> decide

theorem digitChar_toNat {n : Nat} (h : n < 10) : (digitChar n).toNat = 48 + n := by
  interval_cases n <;> decide

theorem hexVal_hexDigitChar {n : Nat} (h : n < 16) : hexVal (hexDigitChar n) = some n := by
  interval_cases n <;> decide

theorem isJsonWs_eq_false_of_isDigit {c : Char} (h : c.isDigit = true) :
    isJsonWs c = false := by
  by_contra hw
  rw [Bool.not_eq_false] at hw
  simp only [isJsonWs, Bool.or_eq_true, beq_iff_eq] at hw
  rcases hw with ((((rfl | rfl) | rfl) | rfl) | rfl) <;> exact absurd h (by decide)

theorem isDigit_ne_lit {c : Char} (h : c.isDigit = true) :
    c ≠ 'n' ∧ c ≠ 't' ∧ c ≠ 'f' ∧ c ≠ '"' ∧ c ≠ '[' ∧ c ≠ '{' ∧ c ≠ '-' ∧
    c ≠ ']' ∧ c ≠ '}' := by
  refine ⟨?_, ?_, ?_, ?_, ?_, ?_, ?_, ?_, ?_⟩ <;>
    · rintro rfl
      exact absurd h (by decide)

theorem skipWs_cons {c : Char} {r : Str} (h : isJsonWs c = false) :
    skipWs (c :: r) = c :: r := by
  simp [skipWs, h]

theorem skipWs_append_ws {w : Str} (t : Str) (h : w.all isJsonWs = true) :
    skipWs (w ++ t) = skipWs t := by
  induction w with
  | nil => rfl
  | cons c cs ih =>
      simp only [List.all_cons, Bool.and_eq_true] at h
      simp [skipWs, h.1, ih h.2]

theorem allWs_nlInd (m : SepMode) (lv : Nat) : (nlInd m lv).all isJsonWs = true := by
  cases m with
  | compact => rfl
  | spaced => rfl
  | indent n =>
      simp only [nlInd, List.all_cons, Bool.and_eq_true]
      refine ⟨by decide, ?_⟩
      simp only [List.all_eq_true, List.mem_replicate]
      rintro c ⟨-, rfl⟩
      decide

theorem allWs_itemPad (m : SepMode) (lv : Nat) : (itemPad m lv).all isJsonWs = true := by
  cases m with
  | compact => rfl
  | spaced => rfl
  | indent n => exact allWs_nlInd (.indent n) lv

theorem allWs_kvPad (m : SepMode) : (kvPad m).all isJsonWs = true := by
  cases m <;> rfl

/-- Leading insignificant whitespace does not change `parseVal`. -/
theorem parseVal_ws (f : Nat) {w : Str} (s : Str) (h : w.all isJsonWs = true) :
    parseVal f (w ++ s) = parseVal f s := by
  cases f with
  | zero => rfl
  | succ f => simp only [parseVal, skipWs_append_ws s h]

/-- Leading insignificant whitespace does not change `parseItems`. -/
theorem parseItems_ws (f : Nat) {w : Str} (s : Str) (h : w.all isJsonWs = true) :
    parseItems f (w ++ s) = parseItems f s := by
  cases f with
  | zero => rfl
  | succ f => simp only [parseItems, parseVal_ws f s h]

/-- Leading insignificant whitespace does not change `parseFields`. -/
theorem parseFields_ws (f : Nat) {w : Str} (s : Str) (h : w.all isJsonWs = true) :
    parseFields f (w ++ s) = parseFields f s := by
  cases f with
  | zero => rfl
  | succ f => simp only [parseFields, skipWs_append_ws s h]

/-- Digit accumulation step of `parseDigits`. -/
def digStep (a : Nat) (c : Char) : Nat := a * 10 + (c.toNat - 48)

theorem natChars_ne_nil (n : Nat) : natChars n ≠ [] := by
  rw [natChars]
  split <;> simp

theorem natChars_digits (n : Nat) : ∀ c ∈ natChars n, c.isDigit = true := by
  induction n using Nat.strong_induction_on with
  | _ n ih =>
      rw [natChars]
      split
      · intro c hc
        rw [List.mem_singleton] at hc
        subst hc
        exact digitChar_isDigit (by omega)
      · intro c hc
        rcases List.mem_append.1 hc with h1 | h1
        · exact ih (n / 10) (Nat.div_lt_self (by omega) (by omega)) c h1
        · rw [List.mem_singleton] at h1
          subst h1
          exact digitChar_isDigit (Nat.mod_lt _ (by omega))

theorem foldl_natChars (n : Nat) :
    ∀ acc, List.foldl digStep acc (natChars n) = acc * 10 ^ (natChars n).length + n := by
  induction n using Nat.strong_induction_on with
  | _ n ih =>
      intro acc
      rw [natChars]
      split
      · next h =>
          simp only [List.foldl_cons, List.foldl_nil, List.length_singleton, digStep,
            digitChar_toNat h, pow_one]
          omega
      · next h =>
          rw [List.foldl_append, List.length_append, ih (n / 10) (Nat.div_lt_self (by omega) (by omega))]
          simp only [List.foldl_cons, List.foldl_nil, List.length_singleton, digStep,
            digitChar_toNat (Nat.mod_lt _ (by omega : (0 : Nat) < 10)), pow_succ]
          have hm := Nat.div_add_mod n 10
          generalize (10 : Nat) ^ (natChars (n / 10)).length = A at *
          rw [← mul_assoc]
          generalize acc * A = B
          omega

theorem parseDigits_append {ds : Str} (h : ∀ c ∈ ds, c.isDigit = true) :
    ∀ acc {rest : Str}, numSafe rest = true →
      parseDigits acc (ds ++ rest) = (List.foldl digStep acc ds, rest) := by
  induction ds with
  | nil =>
      intro acc rest hr
      cases rest with
      | nil => rfl
      | cons c r =>
          simp only [numSafe, Bool.not_eq_true'] at hr
          simp [parseDigits, hr]
  | cons d ds ih =>
      intro acc rest hr
      have hd : d.isDigit = true := h d (List.mem_cons_self _ _)
      simp only [List.cons_append, parseDigits, hd, if_pos]
      exact ih (fun c hc => h c (List.mem_cons_of_mem _ hc)) _ hr

theorem parseDigits_natChars (n : Nat) {rest : Str} (hr : numSafe rest = true)
    {c : Char} {t : Str} (hct : natChars n = c :: t) :
    parseDigits (c.toNat - 48) (t ++ rest) = (n, rest) := by
  have h0 : parseDigits 0 (natChars n ++ rest) = (List.foldl digStep 0 (natChars n), rest) :=
    parseDigits_append (natChars_digits n) 0 hr
  rw [foldl_natChars] at h0
  rw [hct] at h0
  have hcd : c.isDigit = true := natChars_digits n c (hct ▸ List.mem_cons_self _ _)
  simp only [List.cons_append, parseDigits, hcd, if_pos, List.foldl_cons] at h0
  simpa [digStep] using h0

theorem natChars_cons (n : Nat) : ∃ c t, natChars n = c :: t ∧ c.isDigit = true := by
  cases h : natChars n with
  | nil => exact absurd h (natChars_ne_nil n)
  | cons c t => exact ⟨c, t, rfl, natChars_digits n c (h ▸ List.mem_cons_self _ _)⟩

theorem parseStr_quote (r : Str) : parseStr ('"' :: r) = some ([], r) := by
  rw [parseStr.eq_def]
  simp

theorem parseStr_lit {c : Char} (h1 : c ≠ '"') (h2 : c ≠ '\\') (r : Str) :
    parseStr (c :: r) = (parseStr r).map (fun p => (c :: p.1, p.2)) := by
  rw [parseStr.eq_def]
  simp [h1, h2]

theorem parseStr_escQuote (r : Str) :
    parseStr ('\\' :: '"' :: r) = (parseStr r).map (fun p => ('"' :: p.1, p.2)) := by
  rw [parseStr.eq_def]
  simp [escCode]

theorem parseStr_escBackslash (r : Str) :
    parseStr ('\\' :: '\\' :: r) = (parseStr r).map (fun p => ('\\' :: p.1, p.2)) := by
  rw [parseStr.eq_def]
  simp [escCode]

theorem parseStr_escU {h1 h2 h3 h4 : Char} {a b x d : Nat}
    (e1 : hexVal h1 = some a) (e2 : hexVal h2 = some b) (e3 : hexVal h3 = some x)
    (e4 : hexVal h4 = some d) (hval : Nat.isValidChar (((a * 16 + b) * 16 + x) * 16 + d))
    (r : Str) :
    parseStr ('\\' :: 'u' :: h1 :: h2 :: h3 :: h4 :: r) =
      (parseStr r).map
        (fun p => (Char.ofNat (((a * 16 + b) * 16 + x) * 16 + d) :: p.1, p.2)) := by
  rw [parseStr.eq_def]
  simp [e1, e2, e3, e4, hval]

/-- Unescaping a serialized string body recovers it exactly. -/
theorem parseStr_esc (s : Str) : ∀ rest, parseStr (escStr s ++ '"' :: rest) = some (s, rest) := by
  induction s with
  | nil =>
      intro rest
      simpa [escStr] using parseStr_quote rest
  | cons c cs ih =>
      intro rest
      show parseStr ((escChar c ++ escStr cs) ++ '"' :: rest) = _
      rw [List.append_assoc]
      by_cases h1 : c = '"'
      · subst h1
        rw [show escChar '"' = ['\\', '"'] from by decide]
        simp only [List.cons_append, List.nil_append]
        rw [parseStr_escQuote, ih]
        rfl
      · by_cases h2 : c = '\\'
        · subst h2
          rw [show escChar '\\' = ['\\', '\\'] from by decide]
          simp only [List.cons_append, List.nil_append]
          rw [parseStr_escBackslash, ih]
          rfl
        · by_cases h3 : c.toNat < 32
          · have e0 : hexVal '0' = some 0 := by decide
            have e1 : hexVal (hexDigitChar (c.toNat / 16)) = some (c.toNat / 16) :=
              hexVal_hexDigitChar (by omega)
            have e2 : hexVal (hexDigitChar (c.toNat % 16)) = some (c.toNat % 16) :=
              hexVal_hexDigitChar (Nat.mod_lt _ (by omega))
            have hvEq : ((0 * 16 + 0) * 16 + c.toNat / 16) * 16 + c.toNat % 16 = c.toNat := by
              omega
            have hval : Nat.isValidChar (((0 * 16 + 0) * 16 + c.toNat / 16) * 16 + c.toNat % 16) := by
              rw [hvEq]
              exact c.valid
            simp only [escChar, if_neg h1, if_neg h2, if_pos h3, List.cons_append,
              List.nil_append]
            rw [parseStr_escU e0 e0 e1 e2 hval, ih]
            simp [hvEq, Char.ofNat_toNat]
            rw [show c.toNat / 16 * 16 + c.toNat % 16 = c.toNat from by omega, Char.ofNat_toNat]
          · simp only [escChar, if_neg h1, if_neg h2, if_neg h3, List.cons_append,
              List.nil_append]
            rw [parseStr_lit h1 h2, ih]
            rfl

/-- Every serialized value is nonempty, starts with a non-whitespace
character, and does not start with a closing delimiter. -/
theorem serV_cons (m : SepMode) (lv : Nat) (v : Json) :
    ∃ c t, serV m lv v = c :: t ∧ isJsonWs c = false ∧ c ≠ ']' ∧ c ≠ '}' := by
  cases v with
  | null => exact ⟨'n', ['u', 'l', 'l'], by simp [serV], by decide, by decide, by decide⟩
  | bool b =>
      cases b with
      | true => exact ⟨'t', ['r', 'u', 'e'], by simp [serV], by decide, by decide, by decide⟩
      | false => exact ⟨'f', ['a', 'l', 's', 'e'], by simp [serV], by decide, by decide, by decide⟩
  | num i =>
      by_cases hn : i < 0
      · exact ⟨'-', natChars i.natAbs, by simp [serV, intChars, hn], by decide, by decide,
          by decide⟩
      · obtain ⟨c, t, hct, hcd⟩ := natChars_cons i.natAbs
        obtain ⟨-, -, -, -, -, -, -, h8, h9⟩ := isDigit_ne_lit hcd
        exact ⟨c, t, by simp [serV, intChars, hn, hct],
          isJsonWs_eq_false_of_isDigit hcd, h8, h9⟩
  | str s => exact ⟨'"', escStr s ++ ['"'], by simp [serV, quoted], by decide, by decide,
      by decide⟩
  | arr xs =>
      cases xs with
      | nil => exact ⟨'[', [']'], by simp [serV], by decide, by decide, by decide⟩
      | cons x xs =>
          exact ⟨'[', nlInd m (lv + 1) ++ (serV m (lv + 1) x ++ (serItems m (lv + 1) xs ++
            (nlInd m lv ++ [']']))), by simp [serV], by decide, by decide, by decide⟩
  | obj fs =>
      cases fs with
      | nil => exact ⟨'{', ['}'], by simp [serV], by decide, by decide, by decide⟩
      | cons f fs =>
          exact ⟨'{', nlInd m (lv + 1) ++ (serField m (lv + 1) f ++ (serFields m (lv + 1) fs ++
            (nlInd m lv ++ ['}']))), by simp [serV], by decide, by decide, by decide⟩

mutual
/-- Fuel needed by `parseVal` to parse a serialized value. -/
def jfuelV : Json → Nat
  | .null => 1
  | .bool _ => 1
  | .num _ => 1
  | .str _ => 1
  | .arr [] => 1
  | .arr (x :: xs) => 1 + jfuelL (x :: xs)
  | .obj [] => 1
  | .obj (f :: fs) => 1 + jfuelF (f :: fs)

/-- Fuel needed by `parseItems` on serialized items. -/
def jfuelL : List Json → Nat
  | [] => 0
  | x :: xs => 1 + jfuelV x + jfuelL xs

/-- Fuel needed by `parseFields` on serialized fields. -/
def jfuelF : List (Str × Json) → Nat
  | [] => 0
  | (_, v) :: fs => 1 + jfuelV v + jfuelF fs
end

theorem jfuelV_pos (v : Json) : 1 ≤ jfuelV v := by
  cases v with
  | null => simp [jfuelV]
  | bool b => simp [jfuelV]
  | num i => simp [jfuelV]
  | str s => simp [jfuelV]
  | arr xs => cases xs <;> simp [jfuelV]
  | obj fs => cases fs <;> simp [jfuelV]

mutual
theorem jfuelV_le_length : ∀ (m : SepMode) (lv : Nat) (v : Json),
    jfuelV v ≤ (serV m lv v).length
  | m, lv, .null => by simp [jfuelV, serV]
  | m, lv, .bool b => by cases b <;> simp [jfuelV, serV]
  | m, lv, .num i => by
      have h := natChars_ne_nil i.natAbs
      have h2 : 1 ≤ (natChars i.natAbs).length := List.length_pos.2 h
      simp only [jfuelV, serV, intChars]
      split
      · simp only [List.length_cons]
        omega
      · omega
  | m, lv, .str s => by simp [jfuelV, serV, quoted]
  | m, lv, .arr [] => by simp [jfuelV, serV]
  | m, lv, .arr (x :: xs) => by
      have hx := jfuelV_le_length m (lv + 1) x
      have hxs := jfuelL_le_length m (lv + 1) xs
      simp only [jfuelV, jfuelL, serV, List.length_cons, List.length_append,
        List.length_singleton]
      omega
  | m, lv, .obj [] => by simp [jfuelV, serV]
  | m, lv, .obj ((k, v) :: fs) => by
      have hv := jfuelV_le_length m (lv + 1) v
      have hfs := jfuelF_le_length m (lv + 1) fs
      simp only [jfuelV, jfuelF, serV, serField, quoted, List.length_cons,
        List.length_append, List.length_singleton]
      omega

theorem jfuelL_le_length : ∀ (m : SepMode) (lv : Nat) (xs : List Json),
    jfuelL xs ≤ (serItems m lv xs).length
  | m, lv, [] => by simp [jfuelL, serItems]
  | m, lv, x :: xs => by
      have hx := jfuelV_le_length m lv x
      have hxs := jfuelL_le_length m lv xs
      simp only [jfuelL, serItems, List.length_cons, List.length_append]
      omega

theorem jfuelF_le_length : ∀ (m : SepMode) (lv : Nat) (fs : List (Str × Json)),
    jfuelF fs ≤ (serFields m lv fs).length
  | m, lv, [] => by simp [jfuelF, serFields]
  | m, lv, (k, v) :: fs => by
      have hv := jfuelV_le_length m lv v
      have hfs := jfuelF_le_length m lv fs
      simp only [jfuelF, serFields, serField, quoted, List.length_cons,
        List.length_append]
      omega
end

theorem numSafe_of_head {c : Char} (h : c.isDigit = false) (r : Str) :
    numSafe (c :: r) = true := by
  simp [numSafe, h]

theorem numSafe_serItems_close (m : SepMode) (lv lv' : Nat) (xs : List Json)
    {close : Char} (h : close.isDigit = false) (rest : Str) :
    numSafe (serItems m lv xs ++ (nlInd m lv' ++ close :: rest)) = true := by
  cases xs with
  | nil =>
      simp only [serItems, List.nil_append]
      cases m with
      | compact => exact numSafe_of_head h rest
      | spaced => exact numSafe_of_head h rest
      | indent n =>
          simp only [nlInd, List.cons_append]
          exact numSafe_of_head (by decide) _
  | cons x xs =>
      simp only [serItems, List.cons_append]
      exact numSafe_of_head (by decide) _

theorem numSafe_serFields_close (m : SepMode) (lv lv' : Nat) (fs : List (Str × Json))
    {close : Char} (h : close.isDigit = false) (rest : Str) :
    numSafe (serFields m lv fs ++ (nlInd m lv' ++ close :: rest)) = true := by
  cases fs with
  | nil =>
      simp only [serFields, List.nil_append]
      cases m with
      | compact => exact numSafe_of_head h rest
      | spaced => exact numSafe_of_head h rest
      | indent n =>
          simp only [nlInd, List.cons_append]
          exact numSafe_of_head (by decide) _
  | cons f fs =>
      simp only [serFields, List.cons_append]
      exact numSafe_of_head (by decide) _

/-- Skip the closing-delimiter padding: `skipWs (nlInd ++ close :: rest)`. -/
theorem skipWs_nlInd_close (m : SepMode) (lv : Nat) {close : Char}
    (h : isJsonWs close = false) (rest : Str) :
    skipWs (nlInd m lv ++ close :: rest) = close :: rest := by
  rw [skipWs_append_ws _ (allWs_nlInd m lv), skipWs_cons h]

set_option maxHeartbeats 1000000 in
theorem rtMain (m : SepMode) : ∀ f : Nat,
    (∀ v lv rest, jfuelV v ≤ f → numSafe rest = true →
        parseVal f (serV m lv v ++ rest) = some (v, rest)) ∧
    (∀ x xs lv lv2 rest, jfuelL (x :: xs) ≤ f → numSafe rest = true →
        parseItems f (serV m lv x ++ (serItems m lv xs ++ (nlInd m lv2 ++ ']' :: rest))) =
          some (x :: xs, rest)) ∧
    (∀ k v fs lv lv2 rest, jfuelF ((k, v) :: fs) ≤ f → numSafe rest = true →
        parseFields f (serField m lv (k, v) ++ (serFields m lv fs ++ (nlInd m lv2 ++ '}' :: rest))) =
          some ((k, v) :: fs, rest)) := by
  intro f
  induction f with
  | zero =>
      refine ⟨?_, ?_, ?_⟩
      · intro v lv rest hf hr
        exact absurd (le_trans (jfuelV_pos v) hf) (by omega)
      · intro x xs lv lv2 rest hf hr
        simp [jfuelL] at hf
      · intro k v fs lv lv2 rest hf hr
        simp [jfuelF] at hf
  | succ f ih =>
      obtain ⟨ihV, ihI, ihF⟩ := ih
      refine ⟨?_, ?_, ?_⟩
      · -- parseVal on a serialized value
        intro v lv rest hf hr
        cases v with
        | null =>
            rw [show serV m lv Json.null = ['n', 'u', 'l', 'l'] from by simp [serV]]
            simp only [List.cons_append, List.nil_append]
            simp only [parseVal, skipWs_cons (show isJsonWs 'n' = false from by decide)]
            simp [expectChars]
        | bool b =>
            cases b with
            | true =>
                rw [show serV m lv (Json.bool true) = ['t', 'r', 'u', 'e'] from by simp [serV]]
                simp only [List.cons_append, List.nil_append]
                simp only [parseVal, skipWs_cons (show isJsonWs 't' = false from by decide)]
                simp [expectChars]
            | false =>
                rw [show serV m lv (Json.bool false) = ['f', 'a', 'l', 's', 'e'] from by simp [serV]]
                simp only [List.cons_append, List.nil_append]
                simp only [parseVal, skipWs_cons (show isJsonWs 'f' = false from by decide)]
                simp [expectChars]
        | num i =>
            by_cases hn : i < 0
            · obtain ⟨c, t, hct, hcd⟩ := natChars_cons i.natAbs
              have hpd := parseDigits_natChars i.natAbs hr hct
              rw [show serV m lv (Json.num i) = '-' :: natChars i.natAbs from by
                simp [serV, intChars, hn]]
              simp only [List.cons_append]
              simp only [parseVal, skipWs_cons (show isJsonWs '-' = false from by decide)]
              rw [hct]
              simp only [List.cons_append]
              simp [hcd, hpd]
              rw [abs_of_neg hn, neg_neg]
            · obtain ⟨c, t, hct, hcd⟩ := natChars_cons i.natAbs
              have hpd := parseDigits_natChars i.natAbs hr hct
              obtain ⟨hn1, hn2, hn3, hn4, hn5, hn6, hn7, -, -⟩ := isDigit_ne_lit hcd
              rw [show serV m lv (Json.num i) = natChars i.natAbs from by
                simp [serV, intChars, hn], hct]
              simp only [List.cons_append]
              simp only [parseVal, skipWs_cons (isJsonWs_eq_false_of_isDigit hcd)]
              simp [hn1, hn2, hn3, hn4, hn5, hn6, hn7, hcd, hpd]
              exact not_lt.1 hn
        | str s =>
            rw [show serV m lv (Json.str s) = '"' :: (escStr s ++ ['"']) from by simp [serV, quoted]]
            simp only [List.cons_append, List.append_assoc, List.nil_append]
            simp only [parseVal, skipWs_cons (show isJsonWs '"' = false from by decide)]
            simp [parseStr_esc]
        | arr xs =>
            cases xs with
            | nil =>
                rw [show serV m lv (Json.arr []) = ['[', ']'] from by simp [serV]]
                simp only [List.cons_append, List.nil_append]
                simp only [parseVal, skipWs_cons (show isJsonWs '[' = false from by decide),
                  skipWs_cons (show isJsonWs ']' = false from by decide)]
                simp
            | cons x xs =>
                have hfl : jfuelL (x :: xs) ≤ f := by
                  simp only [jfuelV] at hf
                  omega
                rw [show serV m lv (Json.arr (x :: xs)) = '[' :: (nlInd m (lv + 1) ++
                  (serV m (lv + 1) x ++ (serItems m (lv + 1) xs ++ (nlInd m lv ++ [']'])))) from by
                  simp [serV]]
                simp only [List.cons_append, List.append_assoc, List.nil_append]
                simp only [parseVal, skipWs_cons (show isJsonWs '[' = false from by decide)]
                simp only [if_neg (show ¬('[' : Char) = 'n' from by decide),
                  if_neg (show ¬('[' : Char) = 't' from by decide),
                  if_neg (show ¬('[' : Char) = 'f' from by decide),
                  if_neg (show ¬('[' : Char) = '"' from by decide), if_pos rfl, if_true]
                rw [skipWs_append_ws _ (allWs_nlInd m (lv + 1))]
                obtain ⟨c, t, hct, hcw, hcne, -⟩ := serV_cons m (lv + 1) x
                rw [hct]
                simp only [List.cons_append]
                rw [skipWs_cons hcw]
                simp only [if_neg hcne]
                rw [← List.cons_append, ← hct, ihI x xs (lv + 1) lv rest hfl hr]
                rfl
        | obj fs =>
            cases fs with
            | nil =>
                rw [show serV m lv (Json.obj []) = ['{', '}'] from by simp [serV]]
                simp only [List.cons_append, List.nil_append]
                simp only [parseVal, skipWs_cons (show isJsonWs '{' = false from by decide),
                  skipWs_cons (show isJsonWs '}' = false from by decide)]
                simp
            | cons kv fs =>
                obtain ⟨k, v⟩ := kv
                have hfl : jfuelF ((k, v) :: fs) ≤ f := by
                  simp only [jfuelV] at hf
                  omega
                rw [show serV m lv (Json.obj ((k, v) :: fs)) = '{' :: (nlInd m (lv + 1) ++
                  (serField m (lv + 1) (k, v) ++ (serFields m (lv + 1) fs ++
                  (nlInd m lv ++ ['}'])))) from by simp [serV]]
                simp only [List.cons_append, List.append_assoc, List.nil_append]
                simp only [parseVal, skipWs_cons (show isJsonWs '{' = false from by decide)]
                simp only [if_neg (show ¬('{' : Char) = 'n' from by decide),
                  if_neg (show ¬('{' : Char) = 't' from by decide),
                  if_neg (show ¬('{' : Char) = 'f' from by decide),
                  if_neg (show ¬('{' : Char) = '"' from by decide),
                  if_neg (show ¬('{' : Char) = '[' from by decide), if_pos rfl, if_true]
                rw [skipWs_append_ws _ (allWs_nlInd m (lv + 1))]
                rw [show serField m (lv + 1) (k, v) = '"' :: (escStr k ++ ['"'] ++
                  (':' :: (kvPad m ++ serV m (lv + 1) v))) from by simp [serField, quoted]]
                simp only [List.cons_append, List.append_assoc]
                rw [skipWs_cons (show isJsonWs '"' = false from by decide)]
                simp only [if_neg (show ¬('"' : Char) = '}' from by decide)]
                have h := ihF k v fs (lv + 1) lv rest hfl hr
                simp only [serField, quoted, List.cons_append, List.append_assoc,
                  List.nil_append] at h ⊢
                rw [h]
                rfl
      · -- parseItems
        intro x xs lv lv2 rest hf hr
        have hfx : jfuelV x ≤ f := by
          simp only [jfuelL] at hf
          omega
        have hns : numSafe (serItems m lv xs ++ (nlInd m lv2 ++ ']' :: rest)) = true :=
          numSafe_serItems_close m lv lv2 xs (by decide) rest
        simp only [parseItems]
        rw [ihV x lv _ hfx hns]
        cases xs with
        | nil =>
            simp only [serItems, List.nil_append]
            rw [skipWs_nlInd_close m lv2 (by decide) rest]
            simp
        | cons y ys =>
            have hfy : jfuelL (y :: ys) ≤ f := by
              simp only [jfuelL] at hf ⊢
              omega
            simp only [serItems, List.cons_append, List.append_assoc]
            rw [skipWs_cons (show isJsonWs ',' = false from by decide)]
            simp only [if_neg (show ¬(',' : Char) = ']' from by decide), if_pos rfl, if_true]
            rw [parseItems_ws f _ (allWs_itemPad m lv)]
            rw [ihI y ys lv lv2 rest hfy hr]
            rfl
      · -- parseFields
        intro k v fs lv lv2 rest hf hr
        have hfv : jfuelV v ≤ f := by
          simp only [jfuelF] at hf
          omega
        have hns : numSafe (serFields m lv fs ++ (nlInd m lv2 ++ '}' :: rest)) = true :=
          numSafe_serFields_close m lv lv2 fs (by decide) rest
        simp only [serField, quoted, List.cons_append, List.append_assoc, List.nil_append]
        simp only [parseFields]
        rw [skipWs_cons (show isJsonWs '"' = false from by decide)]
        simp only [if_pos rfl, if_true]
        rw [parseStr_esc k]
        simp only []
        rw [skipWs_cons (show isJsonWs ':' = false from by decide)]
        simp only [if_pos rfl, if_true]
        rw [parseVal_ws f _ (allWs_kvPad m)]
        rw [ihV v lv _ hfv hns]
        cases fs with
        | nil =>
            simp only [serFields, List.nil_append]
            rw [skipWs_nlInd_close m lv2 (by decide) rest]
            simp
        | cons kv2 fs2 =>
            obtain ⟨k2, v2⟩ := kv2
            have hf2 : jfuelF ((k2, v2) :: fs2) ≤ f := by
              simp only [jfuelF] at hf ⊢
              omega
            simp only [serFields, List.cons_append, List.append_assoc]
            rw [skipWs_cons (show isJsonWs ',' = false from by decide)]
            simp only [if_neg (show ¬(',' : Char) = '}' from by decide), if_pos rfl, if_true]
            rw [parseFields_ws f _ (allWs_itemPad m lv)]
            have h := ihF k2 v2 fs2 lv lv2 rest hf2 hr
            simp only [serField, quoted, List.cons_append, List.append_assoc,
              List.nil_append] at h ⊢
            rw [h]
            rfl

/-- `json.loads` is a left inverse of `json.dumps` in every separator mode. -/
theorem loads_dumps (m : SepMode) (v : Json) : loads (dumps m v) = some v := by
  unfold loads dumps
  have hfu : jfuelV v ≤ (serV m 0 v).length + 1 :=
    le_trans (jfuelV_le_length m 0 v) (Nat.le_succ _)
  have h := (rtMain m ((serV m 0 v).length + 1)).1 v 0 [] hfu rfl
  rw [List.append_nil] at h
  rw [h]
  rfl

/-- `json.dumps` never maps two distinct values to the same text. -/
theorem dumps_injective (m : SepMode) {a b : Json} (h : dumps m a = dumps m b) : a = b := by
  have ha := loads_dumps m a
  have hb := loads_dumps m b
  rw [h, hb] at ha
  exact (Option.some.inj ha).symm

/-! ## Substring occurrence and the quote segmentation of a serialized dict -/

/-- Executable substring test: does `needle` occur contiguously in `hay`? -/
def containsSub : Str → Str → Bool
  | n, [] => n.isEmpty
  | n, h@(_ :: t) => n.isPrefixOf h || containsSub n t

theorem containsSub_iff (n h : Str) : containsSub n h = true ↔ n <:+: h := by
  induction h with
  | nil =>
      simp only [containsSub, List.isEmpty_iff]
      constructor
      · rintro rfl
        exact List.nil_infix
      · intro hin
        exact List.eq_nil_of_infix_nil hin
  | cons c t ih =>
      simp only [containsSub, Bool.or_eq_true, List.isPrefixOf_iff_prefix, ih,
        List.infix_cons_iff]

/-- Interleave a double quote between consecutive segments. -/
def interQuote : List Str → Str
  | [] => []
  | [a] => a
  | a :: rest => a ++ '"' :: interQuote rest

/-- A quote-free infix of `a ++ '"' :: b` lies inside `a` or inside `b`. -/
theorem infix_split {needle a b : Str} (hq : '"' ∉ needle)
    (h : needle <:+: a ++ '"' :: b) : needle <:+: a ∨ needle <:+: b := by
  obtain ⟨s, t, hst⟩ := h
  rw [List.append_assoc] at hst
  rcases List.append_eq_append_iff.1 hst with ⟨x, h1, h2⟩ | ⟨y, h1, h2⟩
  · -- a = s ++ x  and  needle ++ t = x ++ '"' :: b
    rcases List.append_eq_append_iff.1 h2 with ⟨u, g1, g2⟩ | ⟨w, g1, g2⟩
    · -- x = needle ++ u : the needle sits inside a
      left
      exact ⟨s, u, by rw [h1, g1, List.append_assoc]⟩
    · -- needle = x ++ w  and  '"' :: b = w ++ t
      cases w with
      | nil =>
          left
          rw [List.append_nil] at g1
          exact ⟨s, [], by rw [h1, g1, List.append_nil]⟩
      | cons q w2 =>
          exfalso
          have hm : q = '"' := by
            have hh := congrArg List.head? g2
            simp at hh
            exact hh.symm
          subst hm
          exact hq (g1 ▸ List.mem_append_right x (List.mem_cons_self _ _))
  · -- s = a ++ y  and  '"' :: b = y ++ (needle ++ t)
    cases y with
    | nil =>
        simp only [List.nil_append] at h2
        cases needle with
        | nil => exact Or.inl List.nil_infix
        | cons c cs =>
            exfalso
            have hm : c = '"' := by
              have hh := congrArg List.head? h2
              simp at hh
              exact hh.symm
            subst hm
            exact hq (List.mem_cons_self _ _)
    | cons q y2 =>
        right
        have hb : b = y2 ++ (needle ++ t) := by
          have hh := congrArg List.tail h2
          simpa using hh
        exact ⟨y2, t, by rw [hb, List.append_assoc]⟩

/-- A nonempty quote-free infix of the interleaving lies in one segment. -/
theorem infix_interQuote {needle : Str} (hq : '"' ∉ needle) (hne : needle ≠ []) :
    ∀ segs : List Str, needle <:+: interQuote segs → ∃ seg ∈ segs, needle <:+: seg := by
  intro segs
  induction segs with
  | nil =>
      intro h
      exact absurd (List.eq_nil_of_infix_nil h) hne
  | cons a rest ih =>
      intro h
      cases rest with
      | nil => exact ⟨a, List.mem_cons_self _ _, h⟩
      | cons b rest2 =>
          have h2 : needle <:+: a ++ '"' :: interQuote (b :: rest2) := h
          rcases infix_split hq h2 with h3 | h3
          · exact ⟨a, List.mem_cons_self _ _, h3⟩
          · obtain ⟨seg, hmem, hseg⟩ := ih h3
            exact ⟨seg, List.mem_cons_of_mem _ hmem, hseg⟩

/-- The 25 maximal quote-free segments of a serialized submission. -/
def submissionSegs (s : Submission) : List Str :=
  [['{'], ("submission_id").data, [':'], escStr s.submission_id,
   [','], ("org_id_hash").data, [':'], escStr s.org_id_hash,
   [','], ("key_fingerprint").data, [':'], escStr s.key_fingerprint,
   [','], ("encrypted_payload").data, [':'], escStr s.encrypted_payload,
   [','], ("submitted_at").data, [':'], escStr s.submitted_at,
   [','], ("encryption_method").data, [':'], escStr s.encryption_method, ['}']]

/-- The serialized submission is exactly its segments with quotes between. -/
theorem serializeSubmission_eq (s : Submission) :
    serializeSubmission s = interQuote (submissionSegs s) := by
  have k1 : escStr (("submission_id").data) = ("submission_id").data := by decide
  have k2 : escStr (("org_id_hash").data) = ("org_id_hash").data := by decide
  have k3 : escStr (("key_fingerprint").data) = ("key_fingerprint").data := by decide
  have k4 : escStr (("encrypted_payload").data) = ("encrypted_payload").data := by decide
  have k5 : escStr (("submitted_at").data) = ("submitted_at").data := by decide
  have k6 : escStr (("encryption_method").data) = ("encryption_method").data := by decide
  simp [serializeSubmission, dumps, Submission.toJson, serV, serField, serFields, quoted,
    nlInd, itemPad, kvPad, interQuote, submissionSegs, k1, k2, k3, k4, k5, k6]

instance {ε α : Type} [DecidableEq ε] [DecidableEq α] : DecidableEq (Except ε α) :=
  fun a b =>
    match a, b with
    | .ok x, .ok y =>
        if h : x = y then isTrue (by rw [h]) else isFalse (by intro hc; injection hc; contradiction)
    | .error x, .error y =>
        if h : x = y then isTrue (by rw [h]) else isFalse (by intro hc; injection hc; contradiction)
    | .ok _, .error _ => isFalse (fun hc => Except.noConfusion hc)
    | .error _, .ok _ => isFalse (fun hc => Except.noConfusion hc)

/-- Each quote-free segment occurs verbatim in the interleaving. -/
theorem infix_of_mem_interQuote {seg : Str} :
    ∀ {segs : List Str}, seg ∈ segs → seg <:+: interQuote segs := by
  intro segs
  induction segs with
  | nil => intro h; exact absurd h (List.not_mem_nil _)
  | cons a rest ih =>
      intro h
      cases rest with
      | nil =>
          rcases List.mem_cons.1 h with rfl | h2
          · exact List.infix_refl seg
          · exact absurd h2 (List.not_mem_nil _)
      | cons b r2 =>
          rcases List.mem_cons.1 h with rfl | h2
          · exact ⟨[], '"' :: interQuote (b :: r2), by simp [interQuote]⟩
          · exact List.IsInfix.trans (ih h2) ⟨a ++ ['"'], [], by simp [interQuote]⟩

theorem not_infix_of_containsSub {n h : Str} (hc : containsSub n h = false) :
    ¬ n <:+: h := by
  rw [← containsSub_iff]
  simp [hc]

/-- A needle containing a character absent from the haystack is no infix. -/
theorem not_infix_of_absent_char {needle hay : Str} (c : Char) (hcn : c ∈ needle)
    (hch : c ∉ hay) : ¬ needle <:+: hay :=
  fun h => hch (h.subset hcn)

theorem hexDigitChar_mem_alphabet (m : Nat) :
    hexDigitChar m ∈ (("0123456789abcdef").data) := by
  unfold hexDigitChar
  split <;> decide

/-- The hex digest consists of lower-case hex characters only. -/
theorem sha256Hex_chars (s : Str) : ∀ c ∈ sha256Hex s, c ∈ (("0123456789abcdef").data) := by
  intro c hc
  unfold sha256Hex at hc
  have hw : ∀ (w : Nat), c ∈ wordHex w → c ∈ (("0123456789abcdef").data) := by
    intro w hcw
    unfold wordHex byteHex at hcw
    simp only [List.mem_append, List.mem_cons, List.not_mem_nil, or_false] at hcw
    rcases hcw with (((rfl | rfl) | (rfl | rfl)) | (rfl | rfl)) | (rfl | rfl) <;>
      exact hexDigitChar_mem_alphabet _
  simp only [List.mem_append] at hc
  rcases hc with ((((((hc | hc) | hc) | hc) | hc) | hc) | hc) | hc <;> exact hw _ hc

/-- Hex digests pass through JSON string escaping unchanged. -/
theorem escStr_sha256Hex (s : Str) : escStr (sha256Hex s) = sha256Hex s := by
  have hplain : ∀ t : Str, (∀ c ∈ t, c ∈ (("0123456789abcdef").data)) → escStr t = t := by
    intro t
    induction t with
    | nil => intro _; rfl
    | cons a as ih =>
        intro h
        have ha := h a (List.mem_cons_self _ _)
        have hesc : escChar a = [a] := by
          simp only [List.mem_cons, List.not_mem_nil, or_false] at ha
          rcases ha with rfl | rfl | rfl | rfl | rfl | rfl | rfl | rfl | rfl | rfl | rfl |
            rfl | rfl | rfl | rfl | rfl <;> decide
        rw [show escStr (a :: as) = escChar a ++ escStr as from rfl, hesc,
          ih (fun c hc => h c (List.mem_cons_of_mem _ hc))]
        rfl
  exact hplain _ (sha256Hex_chars s)

/-! ## Compact serialization emits no whitespace outside string content -/

mutual
/-- No string content (keys or values) inside the value contains JSON
whitespace characters. -/
def noWsJson : Json → Bool
  | .null => true
  | .bool _ => true
  | .num _ => true
  | .str s => s.all (fun c => !isJsonWs c)
  | .arr xs => noWsL xs
  | .obj fs => noWsF fs

/-- `noWsJson` over array elements. -/
def noWsL : List Json → Bool
  | [] => true
  | x :: xs => noWsJson x && noWsL xs

/-- `noWsJson` over object fields. -/
def noWsF : List (Str × Json) → Bool
  | [] => true
  | (k, v) :: fs => k.all (fun c => !isJsonWs c) && noWsJson v && noWsF fs
end

theorem hexDigitChar_not_ws (m : Nat) : isJsonWs (hexDigitChar m) = false := by
  unfold hexDigitChar
  split <;> decide

theorem ws_false_of_mem_lit {c : Char} {l : Str}
    (hall : l.all (fun c => !isJsonWs c) = true) (hc : c ∈ l) : isJsonWs c = false := by
  rw [List.all_eq_true] at hall
  simpa using hall c hc

theorem escStr_noWs {s : Str} (hs : ∀ c ∈ s, isJsonWs c = false) :
    ∀ c ∈ escStr s, isJsonWs c = false := by
  induction s with
  | nil =>
      intro c hc
      rw [show escStr [] = [] from rfl] at hc
      exact absurd hc (List.not_mem_nil c)
  | cons a as ih =>
      intro c hc
      rw [show escStr (a :: as) = escChar a ++ escStr as from rfl] at hc
      rcases List.mem_append.1 hc with hc | hc
      · unfold escChar at hc
        split at hc
        · exact ws_false_of_mem_lit (by decide) hc
        · split at hc
          · exact ws_false_of_mem_lit (by decide) hc
          · split at hc
            · simp only [List.mem_cons, List.mem_singleton] at hc
              rcases hc with rfl | rfl | rfl | rfl | rfl | hc
              · decide
              · decide
              · decide
              · decide
              · exact hexDigitChar_not_ws _
              · rcases hc with rfl | hc
                · exact hexDigitChar_not_ws _
                · exact absurd hc (List.not_mem_nil c)
            · rw [List.mem_singleton] at hc
              rw [hc]
              exact hs a (List.mem_cons_self _ _)
      · exact ih (fun c hc => hs c (List.mem_cons_of_mem _ hc)) c hc

mutual
theorem serV_compact_noWs : ∀ (lv : Nat) (v : Json), noWsJson v = true →
    ∀ c ∈ serV .compact lv v, isJsonWs c = false
  | lv, .null => by
      intro _ c hc
      rw [show serV .compact lv Json.null = ['n', 'u', 'l', 'l'] from by simp [serV]] at hc
      exact ws_false_of_mem_lit (by decide) hc
  | lv, .bool b => by
      intro _ c hc
      cases b with
      | true =>
          rw [show serV .compact lv (Json.bool true) = ['t', 'r', 'u', 'e'] from by
            simp [serV]] at hc
          exact ws_false_of_mem_lit (by decide) hc
      | false =>
          rw [show serV .compact lv (Json.bool false) = ['f', 'a', 'l', 's', 'e'] from by
            simp [serV]] at hc
          exact ws_false_of_mem_lit (by decide) hc
  | lv, .num i => by
      intro _ c hc
      have hdig : ∀ c ∈ natChars i.natAbs, isJsonWs c = false := fun c hc =>
        isJsonWs_eq_false_of_isDigit (natChars_digits _ c hc)
      by_cases hn : i < 0
      · rw [show serV .compact lv (Json.num i) = '-' :: natChars i.natAbs from by
          simp [serV, intChars, hn]] at hc
        rcases List.mem_cons.1 hc with rfl | hc
        · decide
        · exact hdig c hc
      · rw [show serV .compact lv (Json.num i) = natChars i.natAbs from by
          simp [serV, intChars, hn]] at hc
        exact hdig c hc
  | lv, .str s => by
      intro hv c hc
      simp only [noWsJson, List.all_eq_true, Bool.not_eq_true'] at hv
      rw [show serV .compact lv (Json.str s) = '"' :: (escStr s ++ ['"']) from by
        simp [serV, quoted]] at hc
      rcases List.mem_cons.1 hc with rfl | hc
      · decide
      · rcases List.mem_append.1 hc with hc | hc
        · exact escStr_noWs hv c hc
        · rw [List.mem_singleton] at hc
          subst hc
          decide
  | lv, .arr [] => by
      intro _ c hc
      rw [show serV .compact lv (Json.arr []) = ['[', ']'] from by simp [serV]] at hc
      exact ws_false_of_mem_lit (by decide) hc
  | lv, .arr (x :: xs) => by
      intro hv c hc
      simp only [noWsJson, noWsL, Bool.and_eq_true] at hv
      rw [show serV .compact lv (Json.arr (x :: xs)) = '[' :: (serV .compact (lv + 1) x ++
        (serItems .compact (lv + 1) xs ++ [']'])) from by
        simp [serV, nlInd, List.append_assoc]] at hc
      rcases List.mem_cons.1 hc with rfl | hc
      · decide
      · rcases List.mem_append.1 hc with hc | hc
        · exact serV_compact_noWs (lv + 1) x hv.1 c hc
        · rcases List.mem_append.1 hc with hc | hc
          · exact serItems_compact_noWs (lv + 1) xs hv.2 c hc
          · rw [List.mem_singleton] at hc
            subst hc
            decide
  | lv, .obj [] => by
      intro _ c hc
      rw [show serV .compact lv (Json.obj []) = ['{', '}'] from by simp [serV]] at hc
      exact ws_false_of_mem_lit (by decide) hc
  | lv, .obj ((k, v) :: fs) => by
      intro hv c hc
      simp only [noWsJson, noWsF, Bool.and_eq_true] at hv
      rw [show serV .compact lv (Json.obj ((k, v) :: fs)) = '{' ::
        (serField .compact (lv + 1) (k, v) ++ (serFields .compact (lv + 1) fs ++ ['}'])) from by
        simp [serV, nlInd, List.append_assoc]] at hc
      rcases List.mem_cons.1 hc with rfl | hc
      · decide
      · rcases List.mem_append.1 hc with hc | hc
        · exact serField_compact_noWs (lv + 1) k v ⟨hv.1.1, hv.1.2⟩ c hc
        · rcases List.mem_append.1 hc with hc | hc
          · exact serFields_compact_noWs (lv + 1) fs hv.2 c hc
          · rw [List.mem_singleton] at hc
            subst hc
            decide

theorem serItems_compact_noWs : ∀ (lv : Nat) (xs : List Json), noWsL xs = true →
    ∀ c ∈ serItems .compact lv xs, isJsonWs c = false
  | lv, [] => by
      intro _ c hc
      rw [show serItems .compact lv [] = [] from by simp [serItems]] at hc
      exact absurd hc (List.not_mem_nil c)
  | lv, x :: xs => by
      intro hv c hc
      simp only [noWsL, Bool.and_eq_true] at hv
      rw [show serItems .compact lv (x :: xs) = ',' :: (serV .compact lv x ++
        serItems .compact lv xs) from by simp [serItems, itemPad]] at hc
      rcases List.mem_cons.1 hc with rfl | hc
      · decide
      · rcases List.mem_append.1 hc with hc | hc
        · exact serV_compact_noWs lv x hv.1 c hc
        · exact serItems_compact_noWs lv xs hv.2 c hc

theorem serField_compact_noWs : ∀ (lv : Nat) (k : Str) (v : Json),
    (k.all (fun c => !isJsonWs c) = true ∧ noWsJson v = true) →
    ∀ c ∈ serField .compact lv (k, v), isJsonWs c = false
  | lv, k, v => by
      intro hv c hc
      rw [show serField .compact lv (k, v) = '"' :: (escStr k ++ ('"' :: ':' ::
        serV .compact lv v)) from by simp [serField, quoted, kvPad]] at hc
      rcases List.mem_cons.1 hc with rfl | hc
      · decide
      · rcases List.mem_append.1 hc with hc | hc
        · refine escStr_noWs ?_ c hc
          intro d hd
          exact ws_false_of_mem_lit hv.1 hd
        · rcases List.mem_cons.1 hc with rfl | hc
          · decide
          · rcases List.mem_cons.1 hc with rfl | hc
            · decide
            · exact serV_compact_noWs lv v hv.2 c hc

theorem serFields_compact_noWs : ∀ (lv : Nat) (fs : List (Str × Json)), noWsF fs = true →
    ∀ c ∈ serFields .compact lv fs, isJsonWs c = false
  | lv, [] => by
      intro _ c hc
      rw [show serFields .compact lv [] = [] from by simp [serFields]] at hc
      exact absurd hc (List.not_mem_nil c)
  | lv, (k, v) :: fs => by
      intro hv c hc
      simp only [noWsF, Bool.and_eq_true] at hv
      rw [show serFields .compact lv ((k, v) :: fs) = ',' :: (serField .compact lv (k, v) ++
        serFields .compact lv fs) from by simp [serFields, itemPad]] at hc
      rcases List.mem_cons.1 hc with rfl | hc
      · decide
      · rcases List.mem_append.1 hc with hc | hc
        · exact serField_compact_noWs lv k v ⟨hv.1.1, hv.1.2⟩ c hc
        · exact serFields_compact_noWs lv fs hv.2 c hc
end

/-- Compact `prepare_payload` output has no whitespace at all when the
report's string contents have none. -/
theorem prepare_payload_noWs {r : Json} (h : noWsJson r = true) :
    ∀ c ∈ prepare_payload r, isJsonWs c = false :=
  serV_compact_noWs 0 r h

/-! ## Spec-side ISO-8601 timestamp shapes -/

/-- Consume exactly `n` decimal digits. -/
def digitsN : Nat → Str → Option Str
  | 0, s => some s
  | _ + 1, [] => none
  | n + 1, c :: s => if c.isDigit then digitsN n s else none

/-- Consume one expected literal character. -/
def litChar (c : Char) : Str → Option Str
  | [] => none
  | d :: s => if d = c then some s else none

/-- Consume `YYYY-MM-DDTHH:MM:SS` and return the remainder. -/
def isoSecondsCore (s : Str) : Option Str :=
  (((((((((digitsN 4 s).bind (litChar '-')).bind (digitsN 2)).bind
    (litChar '-')).bind (digitsN 2)).bind (litChar 'T')).bind (digitsN 2)).bind
    (litChar ':')).bind (digitsN 2)).bind (litChar ':') |>.bind (digitsN 2)

/-- Modelled from the spec: a well-formed ISO-8601 UTC timestamp at second
precision with a trailing `Z` (`YYYY-MM-DDTHH:MM:SSZ`). -/
def specIsoSecondZ (s : Str) : Bool :=
  ((isoSecondsCore s).bind (litChar 'Z')) == some []

/-- Modelled from the spec: a well-formed ISO-8601 UTC timestamp with a
trailing `Z`, at second precision or with a six-digit fraction
(`YYYY-MM-DDTHH:MM:SS[.ffffff]Z` — what `utcnow().isoformat() + "Z"`
actually produces). -/
def specIsoMicroZ (s : Str) : Bool :=
  match isoSecondsCore s with
  | none => false
  | some rest =>
      (litChar 'Z' rest == some []) ||
      ((((litChar '.' rest).bind (digitsN 6)).bind (litChar 'Z')) == some [])

theorem digitsN_two (n : Nat) (rest : Str) : digitsN 2 (pad2 n ++ rest) = some rest := by
  simp [pad2, digitsN, digitChar_isDigit (Nat.mod_lt _ (by omega : (0 : Nat) < 10))]

theorem digitsN_four (n : Nat) (rest : Str) : digitsN 4 (pad4 n ++ rest) = some rest := by
  simp [pad4, digitsN, digitChar_isDigit (Nat.mod_lt _ (by omega : (0 : Nat) < 10))]

theorem digitsN_six (n : Nat) (rest : Str) : digitsN 6 (pad6 n ++ rest) = some rest := by
  simp [pad6, digitsN, digitChar_isDigit (Nat.mod_lt _ (by omega : (0 : Nat) < 10))]

theorem litChar_cons (c : Char) (rest : Str) : litChar c (c :: rest) = some rest := by
  simp [litChar]

theorem isoSecondsCore_isoformat (t : PyDateTime) (rest : Str) :
    isoSecondsCore (isoformat t ++ rest) =
      some ((if t.microsecond = 0 then [] else '.' :: pad6 t.microsecond) ++ rest) := by
  simp only [isoformat, List.append_assoc, List.cons_append]
  simp [isoSecondsCore, digitsN_four, digitsN_two, litChar_cons]

/-- Every timestamp the code stamps is well-formed ISO-8601 with trailing Z
(microsecond precision when the microsecond field is nonzero). -/
theorem utcnowZ_wellformed (t : PyDateTime) : specIsoMicroZ (utcnowZ t) = true := by
  unfold utcnowZ specIsoMicroZ
  by_cases h : t.microsecond = 0
  · rw [isoSecondsCore_isoformat t ['Z'], if_pos h]
    simp [litChar]
  · rw [isoSecondsCore_isoformat t ['Z'], if_neg h]
    simp only [List.cons_append]
    simp [litChar, digitsN_six]

/-- When the microsecond field is nonzero, the stamped timestamp is not at
second precision. -/
theorem utcnowZ_not_second (t : PyDateTime) (h : t.microsecond ≠ 0) :
    specIsoSecondZ (utcnowZ t) = false := by
  unfold utcnowZ specIsoSecondZ
  rw [isoSecondsCore_isoformat t ['Z'], if_neg h]
  simp only [List.cons_append]
  simp [litChar]

/-! ## `src/secure_reporter.py` -/

/-- Result of `gnupg.GPG.encrypt` (`ok`, `status`, and the armored text). -/
structure GpgCrypted where
  ok : Bool
  status : Str
  data : Str

/-- Result of `gnupg.GPG.decrypt` (`ok`, `status`, recovered plaintext). -/
structure GpgDecrypted where
  ok : Bool
  status : Str
  text : Str

/-- Abstract model of the external `gnupg.GPG` engine the reporter drives:
`encrypt(plaintext, recipient_fingerprint)` and
`decrypt(ciphertext, passphrase)`. -/
structure GpgEngine where
  encrypt : Str → Str → GpgCrypted
  decrypt : Str → Str → GpgDecrypted

/-- Spec section 8: a valid key pair behind `(fingerprint, passphrase)` —
encryption to the fingerprint succeeds and decryption with the passphrase
recovers the exact plaintext. -/
def ValidKeyPair (gpg : GpgEngine) (fingerprint passphrase : Str) : Prop :=
  ∀ m : Str,
    (gpg.encrypt m fingerprint).ok = true ∧
    (gpg.decrypt (gpg.encrypt m fingerprint).data passphrase).ok = true ∧
    (gpg.decrypt (gpg.encrypt m fingerprint).data passphrase).text = m

/-- The metadata wrapper built inside `encrypt_vulnerability_report`: this is
the structured report that actually gets serialized and encrypted. -/
def wrapReport (vulnerability_data : Json) (now : PyDateTime) : Json :=
  .obj
    [(("timestamp").data, .str (utcnowZ now)),
     (("report_type").data, .str (("vulnerability").data)),
     (("version").data, .str (("1.0").data)),
     (("data").data, vulnerability_data)]

/-- `datetime.utcnow().strftime("%Y%m%d_%H%M%S")` for the report filename. -/
def strftimeStamp (t : PyDateTime) : Str :=
  pad4 t.year ++ pad2 t.month ++ pad2 t.day ++ ['_'] ++
  pad2 t.hour ++ pad2 t.minute ++ pad2 t.second

/-- The encrypted report file written by `encrypt_vulnerability_report`. -/
structure EncryptedFile where
  path : Str
  content : Str

/-- `SecureVulnerabilityReporter.encrypt_vulnerability_report`: wrap the data
with metadata, serialize with `json.dumps(report, indent=2)`, encrypt with
the recipient key, and write the armored output to a timestamped file.
Raises `ValueError` when the engine reports failure. -/
def encrypt_vulnerability_report (gpg : GpgEngine) (vulnerability_data : Json)
    (recipient_fingerprint : Str) (now : PyDateTime) : Except PyErr EncryptedFile :=
  let report := wrapReport vulnerability_data now
  let report_json := dumps (.indent 2) report
  let encrypted_data := gpg.encrypt report_json recipient_fingerprint
  if encrypted_data.ok = false then
    .error (.valueError (("Encryption failed: ").data ++ encrypted_data.status))
  else
    .ok { path := ("reports/vulnerability_report_").data ++ strftimeStamp now ++ (".pgp").data
          content := encrypted_data.data }

/-- `DecryptionHelper.decrypt_report`: read the file, decrypt, and parse the
recovered JSON.  The file system is an explicit map from paths to contents.
A failed `ok` check raises `ValueError`; unparseable recovered bytes raise
`json.JSONDecodeError` from `json.loads`. -/
def decrypt_report (gpg : GpgEngine) (fileSystem : Str → Option Str)
    (encrypted_file_path passphrase : Str) : Except PyErr Json :=
  match fileSystem encrypted_file_path with
  | none => .error (.fileNotFoundError (("Encrypted file not found: ").data ++ encrypted_file_path))
  | some encrypted_data =>
      let decrypted_data := gpg.decrypt encrypted_data passphrase
      if decrypted_data.ok = false then
        .error (.valueError (("Decryption failed: ").data ++ decrypted_data.status))
      else
        match loads decrypted_data.text with
        | none => .error (.jsonDecodeError (("Expecting value").data))
        | some report => .ok report

/-! ## The claims -/

/-- C1 (counterexample): with identical envelope payload, organization
identifier, key reference and clock, two `build_submission` calls whose
generated UUIDs differ return different `submission_id`s — the id is a fresh
`uuid4`, not a digest over `(org_hash, payload prefix)`, so identical
resubmissions do not produce equal ids. -/
theorem c1_counterexample :
    (build_submission (("ENC").data) (("acme-corp").data) (("fp123").data)
        (("11111111-1111-4111-8111-111111111111").data)
        ⟨2024, 5, 6, 7, 8, 9, 0⟩).submission_id ≠
      (build_submission (("ENC").data) (("acme-corp").data) (("fp123").data)
        (("22222222-2222-4222-8222-222222222222").data)
        ⟨2024, 5, 6, 7, 8, 9, 0⟩).submission_id := by
  decide

/-- C1 (amended): `submission_id` is exactly the generated `str(uuid.uuid4())`,
independent of the envelope payload, the organization identifier, the key
reference and the clock. -/
theorem c1_amended (e org fp e2 org2 fp2 u : Str) (ts ts2 : PyDateTime) :
    (build_submission e org fp u ts).submission_id = u ∧
    (build_submission e org fp u ts).submission_id =
      (build_submission e2 org2 fp2 u ts2).submission_id :=
  ⟨rfl, rfl⟩

/-- A syntactically complete RSA JWK whose modulus is the empty string. -/
def jwkEmptyModulus : Json :=
  .obj [(("kty").data, .str (("RSA").data)), (("n").data, .str []),
        (("e").data, .str (("AQAB").data))]

/-- C4 (counterexample): `validate_jwk_public_key` returns false on an object
that has all three required fields, declares key type RSA and has no private
exponent "d" — because the modulus, though present, is falsy (empty). -/
theorem c4_counterexample :
    validate_jwk_public_key jwkEmptyModulus = false ∧
    (∃ kvs, jwkEmptyModulus = Json.obj kvs ∧
      jget kvs (("kty").data) = some (.str (("RSA").data)) ∧
      (jget kvs (("n").data)).isSome = true ∧
      (jget kvs (("e").data)).isSome = true ∧
      jget kvs (("d").data) = none) := by
  refine ⟨by decide, [(("kty").data, .str (("RSA").data)), (("n").data, .str []),
    (("e").data, .str (("AQAB").data))], rfl, by decide, by decide, by decide, by decide⟩

/-- C4 (amended): `validate_jwk_public_key` never raises (it is a total
Boolean predicate) and returns true exactly when the input is an object whose
"kty" member equals the string "RSA", whose "n" and "e" members are present
and truthy (Python truthiness: absent, `None`, empty string, zero, false and
empty containers all reject), and which has no "d" member. -/
theorem c4_amended (jwk : Json) :
    validate_jwk_public_key jwk = true ↔
      ∃ kvs, jwk = Json.obj kvs ∧
        jget kvs (("kty").data) = some (.str (("RSA").data)) ∧
        truthyOpt (jget kvs (("n").data)) = true ∧
        truthyOpt (jget kvs (("e").data)) = true ∧
        jget kvs (("d").data) = none := by
  cases jwk with
  | obj kvs =>
      constructor
      · intro h
        simp only [validate_jwk_public_key] at h
        split_ifs at h with h1 h2 h3 h4
        rw [not_not] at h1
        refine ⟨kvs, rfl, h1, by simpa using h2, by simpa using h3, ?_⟩
        simpa [Option.isSome_iff_ne_none] using h4
      · rintro ⟨kvs2, heq, h1, h2, h3, h4⟩
        injection heq with heq2
        subst heq2
        simp [validate_jwk_public_key, h1, h2, h3, h4]
  | null =>
      refine iff_of_false (by simp [validate_jwk_public_key]) ?_
      rintro ⟨kvs, heq, -, -, -, -⟩
      exact Json.noConfusion heq
  | bool b =>
      refine iff_of_false (by simp [validate_jwk_public_key]) ?_
      rintro ⟨kvs, heq, -, -, -, -⟩
      exact Json.noConfusion heq
  | num n =>
      refine iff_of_false (by simp [validate_jwk_public_key]) ?_
      rintro ⟨kvs, heq, -, -, -, -⟩
      exact Json.noConfusion heq
  | str s =>
      refine iff_of_false (by simp [validate_jwk_public_key]) ?_
      rintro ⟨kvs, heq, -, -, -, -⟩
      exact Json.noConfusion heq
  | arr xs =>
      refine iff_of_false (by simp [validate_jwk_public_key]) ?_
      rintro ⟨kvs, heq, -, -, -, -⟩
      exact Json.noConfusion heq

/-- C5: `validate_severity` returns the lower-cased, stripped input exactly
when that normalized value is one of the five canonical severities, and fails
with a `ValueError` (the spec's `InvalidSeverity`) otherwise; accepted output
is always lower-case, whitespace-free, in the five-value set, and the
function is idempotent on it. -/
theorem c5_validate_severity (s : Str) :
    (∀ r, validate_severity s = .ok r →
      r = pyStrip (pyLower s) ∧ r ∈ VALID_SEVERITIES ∧ pyLower r = r ∧ pyStrip r = r ∧
        validate_severity r = .ok r) ∧
    (validate_severity s = .ok (pyStrip (pyLower s)) ↔
      pyStrip (pyLower s) ∈ VALID_SEVERITIES) ∧
    (pyStrip (pyLower s) ∉ VALID_SEVERITIES →
      validate_severity s = .error (.valueError ((("Invalid severity ").data) ++ s))) := by
  have hfive : ∀ x ∈ VALID_SEVERITIES,
      pyLower x = x ∧ pyStrip x = x ∧ validate_severity x = .ok x := by decide
  refine ⟨?_, ?_, ?_⟩
  · intro r hr
    simp only [validate_severity] at hr
    split_ifs at hr with h
    · injection hr with hr2
      subst hr2
      obtain ⟨g1, g2, g3⟩ := hfive _ h
      exact ⟨rfl, h, g1, g2, g3⟩
  · constructor
    · intro hr
      simp only [validate_severity] at hr
      split_ifs at hr with h
      · exact h
    · intro h
      simp only [validate_severity]
      rw [if_pos h]
  · intro h
    simp only [validate_severity]
    rw [if_neg h]

/-- C5 (witness): `" CRITICAL"` normalizes to `"critical"`, which is accepted
and idempotent. -/
theorem c5_witness :
    validate_severity ((" CRITICAL").data) = .ok (("critical").data) ∧
    (("critical").data) ∈ VALID_SEVERITIES ∧
    validate_severity (("critical").data) = .ok (("critical").data) := by
  have h := (c5_validate_severity ((" CRITICAL").data)).1 (("critical").data) (by decide)
  exact ⟨by decide, h.2.1, h.2.2.2.2⟩

/-- C7 (counterexample): the serialized submission of a concrete call has
keys `submission_id, org_id_hash, key_fingerprint, encrypted_payload,
submitted_at, encryption_method` — not the spec data model's `org_hash`,
`key_reference` and `envelope`. -/
theorem c7_counterexample :
    jsonKeys (build_submission (("ENC").data) (("org-123").data) (("fp").data)
        (("u").data) ⟨2024, 1, 1, 0, 0, 0, 0⟩).toJson =
      [("submission_id").data, ("org_id_hash").data, ("key_fingerprint").data,
       ("encrypted_payload").data, ("submitted_at").data, ("encryption_method").data] ∧
    ("org_hash").data ∉ jsonKeys (build_submission (("ENC").data) (("org-123").data)
        (("fp").data) (("u").data) ⟨2024, 1, 1, 0, 0, 0, 0⟩).toJson ∧
    ("key_reference").data ∉ jsonKeys (build_submission (("ENC").data) (("org-123").data)
        (("fp").data) (("u").data) ⟨2024, 1, 1, 0, 0, 0, 0⟩).toJson ∧
    ("envelope").data ∉ jsonKeys (build_submission (("ENC").data) (("org-123").data)
        (("fp").data) (("u").data) ⟨2024, 1, 1, 0, 0, 0, 0⟩).toJson := by
  refine ⟨rfl, by decide, by decide, by decide⟩

/-- C7 (amended): for every input, the submission dict's keys are exactly
`submission_id, org_id_hash, key_fingerprint, encrypted_payload,
submitted_at, encryption_method`, in that order. -/
theorem c7_amended (e org fp u : Str) (ts : PyDateTime) :
    jsonKeys (build_submission e org fp u ts).toJson =
      [("submission_id").data, ("org_id_hash").data, ("key_fingerprint").data,
       ("encrypted_payload").data, ("submitted_at").data, ("encryption_method").data] :=
  rfl

/-- C10: a failed key validation raises before any database operation is
issued — the operation trace is empty and the registry is left unchanged —
while a successful validation issues exactly one upsert keyed by the hashed
identifier. -/
theorem c10_store_atomic (org : Str) (jwk : Json) (ts : PyDateTime) :
    (validate_jwk_public_key jwk = false →
      (store_org_key org jwk ts).1 =
        .error (.valueError (("Invalid or malformed JWK public key").data)) ∧
      (store_org_key org jwk ts).2 = [] ∧
      ∀ db, applyOps db (store_org_key org jwk ts).2 = db) ∧
    (validate_jwk_public_key jwk = true →
      store_org_key org jwk ts =
        (.ok true, [.upsertOrgKey (hash_org_id org) (dumps .spaced jwk) (utcnowZ ts)])) := by
  constructor
  · intro h
    refine ⟨?_, ?_, ?_⟩ <;> simp [store_org_key, h, applyOps]
  · intro h
    simp [store_org_key, h]

/-- An RSA JWK carrying the private exponent "d". -/
def jwkWithPrivate : Json :=
  .obj [(("kty").data, .str (("RSA").data)), (("n").data, .str (("abc").data)),
        (("e").data, .str (("AQAB").data)), (("d").data, .str (("secret").data))]

/-- C10 (witness): storing a private key fails validation, issues no
database operation, and leaves a concrete registry unchanged. -/
theorem c10_witness :
    validate_jwk_public_key jwkWithPrivate = false ∧
    (store_org_key (("org-123").data) jwkWithPrivate ⟨2024, 1, 1, 0, 0, 0, 0⟩).2 = [] ∧
    applyOps [((("k").data), (("j").data), (("t").data))]
      (store_org_key (("org-123").data) jwkWithPrivate ⟨2024, 1, 1, 0, 0, 0, 0⟩).2 =
      [((("k").data), (("j").data), (("t").data))] := by
  have h := (c10_store_atomic (("org-123").data) jwkWithPrivate ⟨2024, 1, 1, 0, 0, 0, 0⟩).1
    (by decide)
  exact ⟨by decide, h.2.1, h.2.2 _⟩


/-- Two field lists that are equal as maps but differ in insertion order. -/
def fieldsAB : List (Str × Json) := [(("a").data, .num 1), (("b").data, .num 2)]

/-- The same two fields in the opposite insertion order. -/
def fieldsBA : List (Str × Json) := [(("b").data, .num 2), (("a").data, .num 1)]

/-- C6 (counterexample): two reports that are equal as maps (same lookup
result for every key) but with different insertion order serialize to
different bytes — `json.dumps` is used without `sort_keys`, so key order is
insertion order, not a canonical order. -/
theorem c6_counterexample :
    (∀ k, jget fieldsAB k = jget fieldsBA k) ∧
    prepare_payload (.obj fieldsAB) ≠ prepare_payload (.obj fieldsBA) := by
  constructor
  · intro k
    by_cases h1 : ("a").data = k
    · rw [← h1]
      decide
    · by_cases h2 : ("b").data = k
      · rw [← h2]
        decide
      · simp [fieldsAB, fieldsBA, jget, h1, h2]
  · intro h
    have h2 := dumps_injective .compact h
    injection h2 with h3
    have h4 := congrArg (fun l => l.head?.map Prod.fst) h3
    simp only [fieldsAB, fieldsBA, List.head?_cons, Option.map_some] at h4
    exact absurd h4 (by decide)

/-- C6 (amended): `prepare_payload` is deterministic on the ordered report
value — byte-identical output exactly for identical values, insertion order
of keys included — and the compact separators introduce no whitespace:
whenever the report's own string contents are whitespace-free, so is the
entire payload. -/
theorem c6_amended :
    (∀ r1 r2 : Json, prepare_payload r1 = prepare_payload r2 ↔ r1 = r2) ∧
    (∀ r : Json, noWsJson r = true → ∀ c ∈ prepare_payload r, isJsonWs c = false) := by
  constructor
  · intro r1 r2
    constructor
    · exact dumps_injective .compact
    · rintro rfl
      rfl
  · intro r h
    exact prepare_payload_noWs h

/-- C6 (witness): the amended theorem applied at concrete reports. -/
theorem c6_amended_witness :
    ((.obj fieldsAB : Json) = .obj fieldsAB) ∧ isJsonWs '"' = false := by
  constructor
  · exact (c6_amended.1 (.obj fieldsAB) (.obj fieldsAB)).1 rfl
  · refine c6_amended.2 (.str (("x").data)) (by simp [noWsJson, isJsonWs]) '"' ?_
    rw [show prepare_payload (.str (("x").data)) = '"' :: (escStr (("x").data) ++ ['"']) from by
      simp [prepare_payload, dumps, serV, quoted]]
    exact List.mem_cons_self _ _

/-- Top-level field access on a `create_report` result. -/
def reportField (r : Except PyErr Json) (key : Str) : Option Json :=
  match r with
  | .ok (.obj kvs) => jget kvs key
  | _ => none

/-- Field access inside the `data` member of a `create_report` result. -/
def reportDataField (r : Except PyErr Json) (key : Str) : Option Json :=
  match reportField r (("data").data) with
  | some (.obj kvs) => jget kvs key
  | _ => none

/-- C9 (counterexample): when the clock reads a nonzero microsecond value —
as `datetime.utcnow()` virtually always does — the stamped `timestamp` is
`YYYY-MM-DDTHH:MM:SS.ffffffZ`, which is not second-precision ISO-8601. -/
theorem c9_counterexample :
    reportField (create_report (("t").data) (("d").data) (("high").data) [] []
        none none ⟨2024, 1, 2, 3, 4, 5, 123456⟩ ⟨2024, 1, 2, 3, 4, 5, 654321⟩)
        (("timestamp").data) =
      some (.str (utcnowZ ⟨2024, 1, 2, 3, 4, 5, 123456⟩)) ∧
    specIsoSecondZ (utcnowZ ⟨2024, 1, 2, 3, 4, 5, 123456⟩) = false ∧
    reportDataField (create_report (("t").data) (("d").data) (("high").data) [] []
        none none ⟨2024, 1, 2, 3, 4, 5, 123456⟩ ⟨2024, 1, 2, 3, 4, 5, 654321⟩)
        (("discovery_timestamp").data) =
      some (.str (utcnowZ ⟨2024, 1, 2, 3, 4, 5, 654321⟩)) ∧
    specIsoSecondZ (utcnowZ ⟨2024, 1, 2, 3, 4, 5, 654321⟩) = false := by
  refine ⟨by decide, by decide, by decide, by decide⟩

/-- C9 (amended): on every valid input the report carries a top-level
`timestamp` and a `data.discovery_timestamp`, both well-formed ISO-8601 UTC
with a trailing Z — at microsecond precision when the clock's microsecond
field is nonzero, at second precision when it is zero. -/
theorem c9_amended (title desc sev : Str) (systems : List Str) (rem : Str)
    (cves : Option (List Str)) (extra : Option Json) (t1 t2 : PyDateTime) (sv : Str)
    (h : validate_severity sev = .ok sv) :
    reportField (create_report title desc sev systems rem cves extra t1 t2)
        (("timestamp").data) = some (.str (utcnowZ t1)) ∧
    reportDataField (create_report title desc sev systems rem cves extra t1 t2)
        (("discovery_timestamp").data) = some (.str (utcnowZ t2)) ∧
    specIsoMicroZ (utcnowZ t1) = true ∧ specIsoMicroZ (utcnowZ t2) = true := by
  refine ⟨?_, ?_, utcnowZ_wellformed t1, utcnowZ_wellformed t2⟩ <;>
    simp [create_report, h, reportField, reportDataField, jget]

/-- C9 (witness): the amended theorem at a concrete valid call. -/
theorem c9_amended_witness :
    reportField (create_report (("t").data) (("d").data) (("high").data) [] []
        none none ⟨2024, 1, 2, 3, 4, 5, 123456⟩ ⟨2024, 1, 2, 3, 4, 5, 0⟩)
        (("timestamp").data) =
      some (.str (utcnowZ ⟨2024, 1, 2, 3, 4, 5, 123456⟩)) ∧
    specIsoMicroZ (utcnowZ ⟨2024, 1, 2, 3, 4, 5, 123456⟩) = true := by
  have h := c9_amended (("t").data) (("d").data) (("high").data) [] [] none none
    ⟨2024, 1, 2, 3, 4, 5, 123456⟩ ⟨2024, 1, 2, 3, 4, 5, 0⟩ (("high").data) (by decide)
  exact ⟨h.1, h.2.2.1⟩

/-- C8: when the GPG engine rejects the ciphertext (wrong passphrase, wrong
key, or a failed integrity check) `decrypt_report` raises `ValueError`
("Decryption failed: ..."), and when decryption succeeds but the recovered
bytes do not parse as JSON it raises the distinct class
`json.JSONDecodeError`; the two classes are never conflated. -/
theorem c8_error_classes (gpg : GpgEngine) (fileSystem : Str → Option Str)
    (path pass data : Str) :
    (fileSystem path = some data → (gpg.decrypt data pass).ok = false →
      decrypt_report gpg fileSystem path pass =
        .error (.valueError ((("Decryption failed: ").data) ++ (gpg.decrypt data pass).status))) ∧
    (fileSystem path = some data → (gpg.decrypt data pass).ok = true →
      loads (gpg.decrypt data pass).text = none →
      decrypt_report gpg fileSystem path pass =
        .error (.jsonDecodeError (("Expecting value").data))) ∧
    (∀ m1 m2 : Str, PyErr.valueError m1 ≠ PyErr.jsonDecodeError m2) := by
  refine ⟨?_, ?_, ?_⟩
  · intro hf hd
    simp [decrypt_report, hf, hd]
  · intro hf hd hl
    simp [decrypt_report, hf, hd, hl]
  · intro m1 m2 hc
    exact PyErr.noConfusion hc

/-- C8 (witness): a failing engine yields the `ValueError` class and an
engine recovering unparseable bytes yields the `JSONDecodeError` class. -/
theorem c8_witness :
    decrypt_report ⟨fun m _ => ⟨true, [], m⟩, fun _ _ => ⟨false, ("BAD_PASSPHRASE").data, []⟩⟩
        (fun _ => some (("CIPHERTEXT").data)) (("p").data) (("x").data) =
      .error (.valueError ((("Decryption failed: ").data) ++ ("BAD_PASSPHRASE").data)) ∧
    decrypt_report ⟨fun m _ => ⟨true, [], m⟩, fun _ _ => ⟨true, [], ("not json").data⟩⟩
        (fun _ => some (("CIPHERTEXT").data)) (("p").data) (("x").data) =
      .error (.jsonDecodeError (("Expecting value").data)) := by
  constructor
  · exact (c8_error_classes _ _ (("p").data) (("x").data) (("CIPHERTEXT").data)).1 rfl rfl
  · exact (c8_error_classes _ _ (("p").data) (("x").data) (("CIPHERTEXT").data)).2.1 rfl rfl
      (by decide)

set_option maxHeartbeats 1000000 in
/-- C2: with a valid key pair behind `(fingerprint, passphrase)`, encrypting
any vulnerability data wraps it in the structured report (timestamp,
report_type, version, data) and decrypting the written envelope with the
private key's passphrase recovers that structured report exactly,
field-for-field — in particular its `data` member equals the input. -/
theorem c2_roundtrip (gpg : GpgEngine) (fp pass : Str) (hkey : ValidKeyPair gpg fp pass)
    (data : Json) (now : PyDateTime) :
    encrypt_vulnerability_report gpg data fp now = .ok
      ⟨("reports/vulnerability_report_").data ++ strftimeStamp now ++ (".pgp").data,
       (gpg.encrypt (dumps (.indent 2) (wrapReport data now)) fp).data⟩ ∧
    (∀ fileSystem : Str → Option Str,
      fileSystem (("reports/vulnerability_report_").data ++ strftimeStamp now ++ (".pgp").data) =
        some ((gpg.encrypt (dumps (.indent 2) (wrapReport data now)) fp).data) →
      decrypt_report gpg fileSystem
          (("reports/vulnerability_report_").data ++ strftimeStamp now ++ (".pgp").data) pass =
        .ok (wrapReport data now)) ∧
    jget [(("timestamp").data, .str (utcnowZ now)),
      (("report_type").data, .str (("vulnerability").data)),
      (("version").data, .str (("1.0").data)), (("data").data, data)] (("data").data) =
      some data := by
  obtain ⟨he, hd, ht⟩ := hkey (dumps (.indent 2) (wrapReport data now))
  refine ⟨?_, ?_, ?_⟩
  · simp only [encrypt_vulnerability_report, he]
    rfl
  · intro fileSystem hfs
    simp only [decrypt_report, hfs, hd]
    rw [if_neg (show ¬(true = false) from by decide)]
    rw [ht, loads_dumps]
  · simp only [jget, if_neg (show (("timestamp").data : Str) ≠ ("data").data from by decide),
      if_neg (show (("report_type").data : Str) ≠ ("data").data from by decide),
      if_neg (show (("version").data : Str) ≠ ("data").data from by decide)]
    simp

/-- C2 (witness): the round trip at a concrete engine, report and clock. -/
theorem c2_roundtrip_witness :
    encrypt_vulnerability_report ⟨fun m _ => ⟨true, [], m⟩, fun c _ => ⟨true, [], c⟩⟩
        (.obj [(("title").data, .str (("X").data))]) (("FP").data)
        ⟨2024, 1, 1, 0, 0, 0, 0⟩ = .ok
      ⟨("reports/vulnerability_report_").data ++ strftimeStamp ⟨2024, 1, 1, 0, 0, 0, 0⟩ ++
        (".pgp").data,
       dumps (.indent 2) (wrapReport (.obj [(("title").data, .str (("X").data))])
         ⟨2024, 1, 1, 0, 0, 0, 0⟩)⟩ ∧
    decrypt_report ⟨fun m _ => ⟨true, [], m⟩, fun c _ => ⟨true, [], c⟩⟩
        (fun _ => some (dumps (.indent 2) (wrapReport
          (.obj [(("title").data, .str (("X").data))]) ⟨2024, 1, 1, 0, 0, 0, 0⟩)))
        (("reports/vulnerability_report_").data ++ strftimeStamp ⟨2024, 1, 1, 0, 0, 0, 0⟩ ++
          (".pgp").data) (("pw").data) =
      .ok (wrapReport (.obj [(("title").data, .str (("X").data))]) ⟨2024, 1, 1, 0, 0, 0, 0⟩) := by
  have h := c2_roundtrip ⟨fun m _ => ⟨true, [], m⟩, fun c _ => ⟨true, [], c⟩⟩
    (("FP").data) (("pw").data) (fun m => ⟨rfl, rfl, rfl⟩)
    (.obj [(("title").data, .str (("X").data))]) ⟨2024, 1, 1, 0, 0, 0, 0⟩
  exact ⟨h.1, h.2.1 _ rfl⟩


/-- C3 (counterexample): the raw organization identifier can reach the
serialized submission through the other inputs — here the encrypted payload
text itself contains it (e.g. an armored blob that happens to embed the
string), so the serialized text contains the raw identifier. -/
theorem c3_counterexample :
    ("org-123").data <:+:
      serializeSubmission (build_submission (("org-123").data) (("org-123").data)
        (("fp").data) (("u").data) ⟨2024, 1, 1, 0, 0, 0, 0⟩) := by
  rw [serializeSubmission_eq]
  apply infix_of_mem_interQuote
  have hesc : escStr (("org-123").data) = ("org-123").data := by decide
  simp [submissionSegs, build_submission, hesc]

/-- C3 (amended): the submission itself never stores the raw identifier —
the org-derived field is its SHA-256 hex digest — and the serialized text
cannot contain the identifier unless it arrives through one of the other
inputs: for every identifier (of length at least 2, without a quote
character) that does not occur inside the escaped encrypted payload, key
fingerprint, generated UUID, timestamp, its own hash digest, the fixed key
names or the method tag, the serialized submission does not contain it. -/
theorem c3_amended (e org fp u : Str) (ts : PyDateTime)
    (hlen : 2 ≤ org.length) (hq : '"' ∉ org)
    (h1 : ¬ org <:+: ("submission_id").data) (h2 : ¬ org <:+: ("org_id_hash").data)
    (h3 : ¬ org <:+: ("key_fingerprint").data) (h4 : ¬ org <:+: ("encrypted_payload").data)
    (h5 : ¬ org <:+: ("submitted_at").data) (h6 : ¬ org <:+: ("encryption_method").data)
    (hu : ¬ org <:+: escStr u) (hh : ¬ org <:+: escStr (hash_org_id org))
    (hf : ¬ org <:+: escStr fp) (he : ¬ org <:+: escStr e)
    (ht : ¬ org <:+: escStr (utcnowZ ts)) (hm : ¬ org <:+: escStr ENCRYPTION_METHOD) :
    containsSub org (serializeSubmission (build_submission e org fp u ts)) = false := by
  rw [← Bool.not_eq_true, containsSub_iff]
  intro hinf
  rw [serializeSubmission_eq] at hinf
  have hne : org ≠ [] := by
    intro h0
    rw [h0] at hlen
    simp at hlen
  obtain ⟨seg, hmem, hseg⟩ := infix_interQuote hq hne _ hinf
  have hshort : ∀ c : Char, seg = [c] → False := by
    intro c hc
    rw [hc] at hseg
    have hl := List.IsInfix.length_le hseg
    simp at hl
    omega
  simp only [submissionSegs, build_submission, List.mem_cons, List.not_mem_nil,
    or_false] at hmem
  rcases hmem with rfl | rfl | rfl | rfl | rfl | rfl | rfl | rfl | rfl | rfl | rfl | rfl |
    rfl | rfl | rfl | rfl | rfl | rfl | rfl | rfl | rfl | rfl | rfl | rfl | rfl
  · exact hshort _ rfl
  · exact h1 hseg
  · exact hshort _ rfl
  · exact hu hseg
  · exact hshort _ rfl
  · exact h2 hseg
  · exact hshort _ rfl
  · exact hh hseg
  · exact hshort _ rfl
  · exact h3 hseg
  · exact hshort _ rfl
  · exact hf hseg
  · exact hshort _ rfl
  · exact h4 hseg
  · exact hshort _ rfl
  · exact he hseg
  · exact hshort _ rfl
  · exact h5 hseg
  · exact hshort _ rfl
  · exact ht hseg
  · exact hshort _ rfl
  · exact h6 hseg
  · exact hshort _ rfl
  · exact hm hseg
  · exact hshort _ rfl

/-- C3 (witness): for the spec scenario identifier "acme-corp" (no quote
character, absent from the other concrete inputs, and containing a dash —
a character that can never occur in a hex digest), the serialized submission
does not contain the raw identifier. -/
theorem c3_amended_witness :
    containsSub (("acme-corp").data)
      (serializeSubmission (build_submission (("ENVELOPE").data) (("acme-corp").data)
        (("fp123").data) (("11111111-1111-4111-8111-111111111111").data)
        ⟨2024, 1, 1, 0, 0, 0, 0⟩)) = false := by
  apply c3_amended
  · decide
  · decide
  · exact not_infix_of_containsSub (by decide)
  · exact not_infix_of_containsSub (by decide)
  · exact not_infix_of_containsSub (by decide)
  · exact not_infix_of_containsSub (by decide)
  · exact not_infix_of_containsSub (by decide)
  · exact not_infix_of_containsSub (by decide)
  · exact not_infix_of_containsSub (by decide)
  · rw [show hash_org_id (("acme-corp").data) = sha256Hex (("acme-corp").data) from rfl,
      escStr_sha256Hex]
    refine not_infix_of_absent_char '-' (by decide) ?_
    intro hmem
    have hhex := sha256Hex_chars (("acme-corp").data) '-' hmem
    revert hhex
    decide
  · exact not_infix_of_containsSub (by decide)
  · exact not_infix_of_containsSub (by decide)
  · exact not_infix_of_containsSub (by decide)
  · exact not_infix_of_containsSub (by decide)

end NetGuardian
